import Mathlib

/-!
Shallow embedding of the configuration-merge and state-reconciliation engine
of gh-governor (src/src/sets.rs, src/src/settings.rs, src/src/merge.rs,
src/src/diff.rs, src/src/app.rs).

Conventions of the embedding:
* Rust `Option<T>` becomes `Option T`, `Result<T, E>` becomes `Except E T`.
* `HashMap<String, V>` becomes an association list `List (String × V)` with
  `alookup`/`ainsert`; the merge engine only observes the map through lookup,
  and its label output is sorted by name downstream, so the representation
  order is immaterial for every property stated here.
* Rust `u64`/`u8` become `Nat` (no arithmetic is performed on them).
* `sort_by(|a, b| a.name.cmp(&b.name))` (a stable sort) becomes
  `List.insertionSort` on the name order (also stable).
* `String::to_lowercase` is modelled per character with `Char.toLower`
  (the values involved are ASCII hex colors); `trim_start_matches('#')`
  drops every leading `'#'`.
* File loading and the GitHub transport are external collaborators; where a
  claim needs them they appear as explicit function-valued inputs
  representing the result of the corresponding calls.
-/

deriving instance DecidableEq for Except

namespace GhGovernor

/-! ## Data model (src/src/sets.rs, src/src/settings.rs) -/

/-- `LabelSpec` from sets.rs. Equality is the derived structural equality
(`#[derive(PartialEq, Eq)]` in the source): colors are compared verbatim. -/
structure LabelSpec where
  name : String
  color : Option String
  description : Option String
deriving DecidableEq, Repr

/-- `IssueTemplateFile` from sets.rs. -/
structure IssueTemplateFile where
  path : String
  contents : String
deriving DecidableEq, Repr

/-- `ChecksConfig` from sets.rs. -/
structure ChecksConfig where
  require_codeowners : Bool
  warn_on_inactive_owners : Bool
deriving DecidableEq, Repr

/-- `StatusCheck` from settings.rs. -/
structure StatusCheck where
  context : String
  app_id : Option Nat
deriving DecidableEq, Repr

/-- `RequiredStatusChecks` from settings.rs. -/
structure RequiredStatusChecks where
  strict : Option Bool
  contexts : Option (List String)
  checks : Option (List StatusCheck)
deriving DecidableEq, Repr

/-- `ReviewDismissalRestrictions` from settings.rs. -/
structure ReviewDismissalRestrictions where
  users : Option (List String)
  teams : Option (List String)
deriving DecidableEq, Repr

/-- `RequiredPullRequestReviews` from settings.rs. -/
structure RequiredPullRequestReviews where
  dismiss_stale_reviews : Option Bool
  require_code_owner_reviews : Option Bool
  required_approving_review_count : Option Nat
  require_last_push_approval : Option Bool
  dismissal_restrictions : Option ReviewDismissalRestrictions
deriving DecidableEq, Repr

/-- `BranchRestrictions` from settings.rs. -/
structure BranchRestrictions where
  users : Option (List String)
  teams : Option (List String)
  apps : Option (List String)
deriving DecidableEq, Repr

/-- `BranchProtectionRule` from settings.rs: every field but `pattern` is
independently optional. -/
structure BranchProtectionRule where
  pattern : String
  required_status_checks : Option RequiredStatusChecks
  required_pull_request_reviews : Option RequiredPullRequestReviews
  enforce_admins : Option Bool
  restrictions : Option BranchRestrictions
  allow_force_pushes : Option Bool
  allow_deletions : Option Bool
  block_creations : Option Bool
  require_linear_history : Option Bool
  required_conversation_resolution : Option Bool
  required_signatures : Option Bool
deriving DecidableEq, Repr

/-- `BranchProtectionConfig` from settings.rs. -/
structure BranchProtectionConfig where
  rules : List BranchProtectionRule
deriving DecidableEq, Repr

/-- `SquashMergeCommitMessage` from settings.rs. -/
inductive SquashMergeCommitMessage
  | PrBody
  | CommitMessages
  | Blank
deriving DecidableEq, Repr

/-- `SquashMergeCommitTitle` from settings.rs. -/
inductive SquashMergeCommitTitle
  | PrTitle
  | CommitOrPrTitle
deriving DecidableEq, Repr

/-- `MergeCommitMessage` from settings.rs. -/
inductive MergeCommitMessage
  | PrTitle
  | PrBody
  | Blank
deriving DecidableEq, Repr

/-- `MergeCommitTitle` from settings.rs. -/
inductive MergeCommitTitle
  | PrTitle
  | MergeMessage
deriving DecidableEq, Repr

/-- `SquashMergeOption` from settings.rs. -/
inductive SquashMergeOption
  | DefaultMessage
  | PullRequestTitle
  | PullRequestTitleAndCommitDetails
  | PullRequestTitleAndDescription
deriving DecidableEq, Repr

/-- `MergeCommitMessageOption` from settings.rs. -/
inductive MergeCommitMessageOption
  | DefaultMessage
  | PullRequestTitle
  | PullRequestTitleAndDescription
deriving DecidableEq, Repr

/-- `PullRequestSettings` from settings.rs. -/
structure PullRequestSettings where
  allow_merge_commit : Option Bool
  allow_squash_merge : Option Bool
  allow_rebase_merge : Option Bool
  allow_auto_merge : Option Bool
  delete_branch_on_merge : Option Bool
  merge_commit_message_option : Option MergeCommitMessageOption
  squash_merge_option : Option SquashMergeOption
deriving DecidableEq, Repr

/-- `RepoSettings`. The `branch_protection` member is evidenced by its uses
in app.rs (`s.branch_protection`) and the diff.rs tests; the diff engine
itself only reads `pull_requests`. -/
structure RepoSettings where
  pull_requests : Option PullRequestSettings
  branch_protection : Option BranchProtectionConfig
deriving DecidableEq, Repr

/-- `SetDefinition` from sets.rs (the `path: PathBuf` bookkeeping field is
omitted: nothing in the merge or diff engines reads it). -/
structure SetDefinition where
  name : String
  labels : List LabelSpec
  issue_templates : List IssueTemplateFile
  repo_settings : Option RepoSettings
  branch_protection : Option BranchProtectionConfig
  checks : Option ChecksConfig
deriving DecidableEq, Repr

/-- `map_squash_option` from settings.rs: the fixed squash-variant table. -/
def map_squash_option (opt : SquashMergeOption) :
    Option SquashMergeCommitTitle × Option SquashMergeCommitMessage :=
  match opt with
  | .DefaultMessage => (some .CommitOrPrTitle, some .CommitMessages)
  | .PullRequestTitle => (some .PrTitle, some .Blank)
  | .PullRequestTitleAndCommitDetails => (some .PrTitle, some .CommitMessages)
  | .PullRequestTitleAndDescription => (some .PrTitle, some .PrBody)

/-- `map_merge_message_option` from settings.rs: the fixed merge-variant table. -/
def map_merge_message_option (opt : MergeCommitMessageOption) :
    Option MergeCommitTitle × Option MergeCommitMessage :=
  match opt with
  | .DefaultMessage => (some .MergeMessage, some .PrTitle)
  | .PullRequestTitle => (some .PrTitle, some .PrTitle)
  | .PullRequestTitleAndDescription => (some .PrTitle, some .PrBody)

/-! ## Association-list map (stands in for `std::collections::HashMap`) -/

/-- Lookup by key, first match wins. -/
def alookup {α : Type} (k : String) : List (String × α) → Option α
  | [] => none
  | (k2, v) :: rest => if k2 = k then some v else alookup k rest

/-- Insert, replacing the first entry with the same key (as `HashMap::insert`). -/
def ainsert {α : Type} (k : String) (v : α) : List (String × α) → List (String × α)
  | [] => [(k, v)]
  | (k2, v2) :: rest => if k2 = k then (k, v) :: rest else (k2, v2) :: ainsert k v rest

/-! ## Merge engine (src/src/merge.rs) -/

/-- `MergeError` from merge.rs. -/
inductive MergeError
  | LabelConflict (name : String)
  | TemplateConflict (path : String)
  | GenericConflict (what : String)
deriving DecidableEq, Repr

/-- The thiserror `#[error(...)]` display strings of `MergeError`. -/
def mergeErrorMessage : MergeError → String
  | .LabelConflict n => "label conflict for '" ++ n ++ "' between sets; definitions differ"
  | .TemplateConflict p => "issue template conflict for '" ++ p ++ "' between sets"
  | .GenericConflict w => w ++ " conflict between sets"

/-- `MergedRepoConfig` from merge.rs. -/
structure MergedRepoConfig where
  labels : List LabelSpec
  issue_templates : List IssueTemplateFile
  repo_settings : Option RepoSettings
  branch_protection : Option BranchProtectionConfig
  checks : Option ChecksConfig
deriving DecidableEq, Repr

/-- Body of the label loop in `merge_sets_for_repo` (merge.rs lines 37-46):
a second definition under an existing name that differs (derived structural
equality) is a `LabelConflict`; otherwise the definition is inserted. -/
def insertLabel (m : List (String × LabelSpec)) (label : LabelSpec) :
    Except MergeError (List (String × LabelSpec)) :=
  match alookup label.name m with
  | some existing =>
      if existing ≠ label then .error (.LabelConflict label.name)
      else .ok (ainsert label.name label m)
  | none => .ok (ainsert label.name label m)

/-- The label loop of `merge_sets_for_repo` over one set's labels. -/
def insertLabels (m : List (String × LabelSpec)) :
    List LabelSpec → Except MergeError (List (String × LabelSpec))
  | [] => .ok m
  | l :: rest =>
    match insertLabel m l with
    | .error e => .error e
    | .ok m2 => insertLabels m2 rest

/-- Body of the template loop in `merge_sets_for_repo` (merge.rs lines 48-53):
a second file at an existing path is a `TemplateConflict` regardless of the
contents. -/
def insertTemplate (m : List (String × IssueTemplateFile)) (t : IssueTemplateFile) :
    Except MergeError (List (String × IssueTemplateFile)) :=
  if (alookup t.path m).isSome then .error (.TemplateConflict t.path)
  else .ok (ainsert t.path t m)

/-- The template loop of `merge_sets_for_repo` over one set's templates. -/
def insertTemplates (m : List (String × IssueTemplateFile)) :
    List IssueTemplateFile → Except MergeError (List (String × IssueTemplateFile))
  | [] => .ok m
  | t :: rest =>
    match insertTemplate m t with
    | .error e => .error e
    | .ok m2 => insertTemplates m2 rest

/-- `merge_or_conflict` from merge.rs. -/
def merge_or_conflict {T : Type} [DecidableEq T] (existing : Option T) (incoming : T)
    (what : String) : Except MergeError (Option T) :=
  match existing with
  | some current =>
      if current ≠ incoming then .error (.GenericConflict what) else .ok (some current)
  | none => .ok (some incoming)

/-- The accumulating state of the `for set in sets` loop in
`merge_sets_for_repo`. -/
structure MergeState where
  labels : List (String × LabelSpec)
  templates : List (String × IssueTemplateFile)
  repo_settings : Option RepoSettings
  branch_protection : Option BranchProtectionConfig
  checks : Option ChecksConfig
deriving Repr

/-- One iteration of the `for set in sets` loop of `merge_sets_for_repo`:
labels, then templates, then the three scalar resources. -/
def mergeSet (st : MergeState) (s : SetDefinition) : Except MergeError MergeState :=
  match insertLabels st.labels s.labels with
  | .error e => .error e
  | .ok labels =>
    match insertTemplates st.templates s.issue_templates with
    | .error e => .error e
    | .ok templates =>
      match (match s.repo_settings with
             | some settings => merge_or_conflict st.repo_settings settings "repo settings"
             | none => .ok st.repo_settings) with
      | .error e => .error e
      | .ok repo_settings =>
        match (match s.branch_protection with
               | some bp => merge_or_conflict st.branch_protection bp "branch protection"
               | none => .ok st.branch_protection) with
        | .error e => .error e
        | .ok branch_protection =>
          match (match s.checks with
                 | some chk => merge_or_conflict st.checks chk "checks"
                 | none => .ok st.checks) with
          | .error e => .error e
          | .ok checks => .ok ⟨labels, templates, repo_settings, branch_protection, checks⟩

/-- The whole `for set in sets` loop. -/
def mergeSets (st : MergeState) : List SetDefinition → Except MergeError MergeState
  | [] => .ok st
  | s :: rest =>
    match mergeSet st s with
    | .error e => .error e
    | .ok st2 => mergeSets st2 rest

/-- Strict lexicographic order on character lists. Rust's `str::cmp` is
byte-wise lexicographic, which for UTF-8 coincides with code-point
lexicographic order. -/
def charListLt : List Char → List Char → Bool
  | [], [] => false
  | [], _ :: _ => true
  | _ :: _, [] => false
  | a :: as, b :: bs => if a < b then true else if b < a then false else charListLt as bs

/-- Strict name order on strings (`a.name.cmp(&b.name) == Less`). -/
def strLtb (a b : String) : Bool := charListLt a.data b.data

/-- The non-strict name order used by `sort_by(|a, b| a.name.cmp(&b.name))`. -/
def labelLe (a b : LabelSpec) : Prop := strLtb b.name a.name = false

instance : DecidableRel labelLe := fun a b =>
  inferInstanceAs (Decidable (strLtb b.name a.name = false))

/-- Stable sort by label name, as the source's `sort_by` on names. -/
def sortLabels (ls : List LabelSpec) : List LabelSpec := ls.insertionSort labelLe

/-- `merge_sets_for_repo` from merge.rs: fold the sets, then emit the label
map's values sorted by name (the template values keep map order, which no
claim depends on). -/
def merge_sets_for_repo (sets : List SetDefinition) : Except MergeError MergedRepoConfig :=
  match mergeSets ⟨[], [], none, none, none⟩ sets with
  | .error e => .error e
  | .ok st =>
      .ok ⟨sortLabels (st.labels.map Prod.snd), st.templates.map Prod.snd,
           st.repo_settings, st.branch_protection, st.checks⟩

/-! ## Diff engine (src/src/diff.rs) -/

/-- The fields of `octocrab::models::Label` read by the diff engine:
`name`, `color` (always present on the API type) and `description`. -/
structure GhLabel where
  name : String
  color : String
  description : Option String
deriving DecidableEq, Repr

/-- `normalize_color` from diff.rs: strip every leading `'#'` and lowercase
(`to_lowercase` modelled per character; the colors are ASCII hex). -/
def normalize_color (color : Option String) : Option String :=
  color.map (fun c => ⟨(c.data.dropWhile (· = '#')).map Char.toLower⟩)

/-- `LabelDiff` from diff.rs. -/
structure LabelDiff where
  to_add : List LabelSpec
  to_update : List LabelSpec
  to_remove : List LabelSpec
deriving DecidableEq, Repr

/-- The per-label update test of `diff_labels` (diff.rs lines 22-25):
normalized colors or descriptions differ. -/
def labelNeedsUpdate (want : LabelSpec) (existing : GhLabel) : Bool :=
  !(normalize_color (some existing.color) == normalize_color want.color
      && existing.description == want.description)

/-- The `to_add` pushes of the first loop of `diff_labels`, in desired order. -/
def collectAdds (current : List GhLabel) : List LabelSpec → List LabelSpec
  | [] => []
  | want :: rest =>
    match current.find? (fun c => c.name == want.name) with
    | none => want :: collectAdds current rest
    | some _ => collectAdds current rest

/-- The `to_update` pushes of the first loop of `diff_labels`, in desired
order (the source interleaves both pushes in one pass over `desired`; the
two vectors are independent, so the split is behaviour-preserving). -/
def collectUpdates (current : List GhLabel) : List LabelSpec → List LabelSpec
  | [] => []
  | want :: rest =>
    match current.find? (fun c => c.name == want.name) with
    | none => collectUpdates current rest
    | some existing =>
      if labelNeedsUpdate want existing then want :: collectUpdates current rest
      else collectUpdates current rest

/-- The `to_remove` loop of `diff_labels`: current labels whose name is not
desired, with the color renormalized for reporting. -/
def collectRemovals (desired : List LabelSpec) : List GhLabel → List LabelSpec
  | [] => []
  | existing :: rest =>
    if desired.any (fun d => d.name == existing.name) then collectRemovals desired rest
    else
      { name := existing.name, color := normalize_color (some existing.color),
        description := existing.description } :: collectRemovals desired rest

/-- `diff_labels` from diff.rs: the three lists, each sorted by name. -/
def diff_labels (desired : List LabelSpec) (current : List GhLabel) : LabelDiff :=
  { to_add := sortLabels (collectAdds current desired)
    to_update := sortLabels (collectUpdates current desired)
    to_remove := sortLabels (collectRemovals desired current) }

/-- `SettingChange` from diff.rs. -/
structure SettingChange where
  field : String
  current : Option String
  desired : String
deriving DecidableEq, Repr

/-- `RepoSettingsDiff` from diff.rs. -/
structure RepoSettingsDiff where
  changes : List SettingChange
deriving DecidableEq, Repr

/-- Rust's `bool::to_string`. -/
def boolString (b : Bool) : String := if b then "true" else "false"

/-- The `check` closure of `diff_repo_settings`: a change entry is pushed
exactly when the desired field is set and the observed value differs. -/
def check (field : String) (want got : Option Bool) : List SettingChange :=
  match want with
  | none => []
  | some target =>
    if got = some target then []
    else [{ field := field, current := got.map boolString, desired := boolString target }]

/-- Rust `Debug` strings of `MergeCommitTitle`. -/
def debugMergeTitle : MergeCommitTitle → String
  | .PrTitle => "PrTitle"
  | .MergeMessage => "MergeMessage"

/-- Rust `Debug` strings of `MergeCommitMessage`. -/
def debugMergeMessage : MergeCommitMessage → String
  | .PrTitle => "PrTitle"
  | .PrBody => "PrBody"
  | .Blank => "Blank"

/-- Rust `Debug` strings of `SquashMergeCommitTitle`. -/
def debugSquashTitle : SquashMergeCommitTitle → String
  | .PrTitle => "PrTitle"
  | .CommitOrPrTitle => "CommitOrPrTitle"

/-- Rust `Debug` strings of `SquashMergeCommitMessage`. -/
def debugSquashMessage : SquashMergeCommitMessage → String
  | .PrBody => "PrBody"
  | .CommitMessages => "CommitMessages"
  | .Blank => "Blank"

/-- The `merge_commit_message_option` block of `diff_repo_settings`
(diff.rs lines 120-141): whenever the option is set in desired, an entry
with `current = None` is pushed (the current value cannot be read back). -/
def mergeOptionChanges (dpr : PullRequestSettings) : List SettingChange :=
  match dpr.merge_commit_message_option with
  | none => []
  | some opt =>
    let tm := map_merge_message_option opt
    let title_str := tm.1.map debugMergeTitle
    let msg_str := tm.2.map debugMergeMessage
    if tm.1.isSome || tm.2.isSome then
      [{ field := "merge_commit_message_option", current := none,
         desired := title_str.getD "unset" ++ " / " ++ msg_str.getD "unset" }]
    else []

/-- The `squash_merge_option` block of `diff_repo_settings`
(diff.rs lines 143-164). -/
def squashOptionChanges (dpr : PullRequestSettings) : List SettingChange :=
  match dpr.squash_merge_option with
  | none => []
  | some opt =>
    let tm := map_squash_option opt
    let title_str := tm.1.map debugSquashTitle
    let msg_str := tm.2.map debugSquashMessage
    if tm.1.isSome || tm.2.isSome then
      [{ field := "squash_merge_option", current := none,
         desired := title_str.getD "unset" ++ " / " ++ msg_str.getD "unset" }]
    else []

/-- `diff_repo_settings` from diff.rs: nothing is compared when desired has
no `pull_requests`; otherwise the five boolean checks in source order,
then the two option blocks. -/
def diff_repo_settings (desired current : RepoSettings) : RepoSettingsDiff :=
  match desired.pull_requests with
  | none => { changes := [] }
  | some dpr =>
    let cpr := current.pull_requests
    { changes :=
        check "allow_merge_commit" dpr.allow_merge_commit
            (cpr.bind (fun p => p.allow_merge_commit))
          ++ check "allow_squash_merge" dpr.allow_squash_merge
            (cpr.bind (fun p => p.allow_squash_merge))
          ++ check "allow_rebase_merge" dpr.allow_rebase_merge
            (cpr.bind (fun p => p.allow_rebase_merge))
          ++ check "allow_auto_merge" dpr.allow_auto_merge
            (cpr.bind (fun p => p.allow_auto_merge))
          ++ check "delete_branch_on_merge" dpr.delete_branch_on_merge
            (cpr.bind (fun p => p.delete_branch_on_merge))
          ++ mergeOptionChanges dpr
          ++ squashOptionChanges dpr }

/-! ## Branch-protection reconciler (src/src/app.rs, `merge_branch_rule`) -/

/-- `merge_branch_rule` from app.rs lines 551-589: start from a clone of
`desired`; for each optional field that is `None`, copy the current rule's
value when a current rule exists. -/
def merge_branch_rule (desired : BranchProtectionRule)
    (current : Option BranchProtectionRule) : BranchProtectionRule :=
  match current with
  | none => desired
  | some cur =>
    { pattern := desired.pattern
      required_status_checks :=
        if desired.required_status_checks = none then cur.required_status_checks
        else desired.required_status_checks
      required_pull_request_reviews :=
        if desired.required_pull_request_reviews = none then cur.required_pull_request_reviews
        else desired.required_pull_request_reviews
      enforce_admins :=
        if desired.enforce_admins = none then cur.enforce_admins else desired.enforce_admins
      restrictions :=
        if desired.restrictions = none then cur.restrictions else desired.restrictions
      allow_force_pushes :=
        if desired.allow_force_pushes = none then cur.allow_force_pushes
        else desired.allow_force_pushes
      allow_deletions :=
        if desired.allow_deletions = none then cur.allow_deletions else desired.allow_deletions
      block_creations :=
        if desired.block_creations = none then cur.block_creations else desired.block_creations
      require_linear_history :=
        if desired.require_linear_history = none then cur.require_linear_history
        else desired.require_linear_history
      required_conversation_resolution :=
        if desired.required_conversation_resolution = none then
          cur.required_conversation_resolution
        else desired.required_conversation_resolution
      required_signatures :=
        if desired.required_signatures = none then cur.required_signatures
        else desired.required_signatures }

/-! ## Label safety gate (src/src/app.rs lines 140-148, 277-292) -/

/-- `LabelUsageEntry` from github.rs. -/
structure LabelUsageEntry where
  number : Nat
  url : Option String
  is_pr : Bool
deriving DecidableEq, Repr

/-- The gating loop of `handle_repos` (app.rs lines 140-148): each label in
`to_remove` whose usage query returns `Some` goes to `blocked_removals`,
the rest to `removable`. The `usage` argument is the result of
`gh.label_usage(repo, name, verbose)` for each name. -/
def gate_removals (usage : String → Option (List LabelUsageEntry)) :
    List LabelSpec → List (LabelSpec × List LabelUsageEntry) × List LabelSpec
  | [] => ([], [])
  | label :: rest =>
    let tail := gate_removals usage rest
    match usage label.name with
    | some u => ((label, u) :: tail.1, tail.2)
    | none => (tail.1, label :: tail.2)

/-- The apply-mode `delete_label` call list (app.rs lines 283-285): one call
per label in `removable`, by name. -/
def apply_delete_calls (usage : String → Option (List LabelUsageEntry))
    (to_remove : List LabelSpec) : List String :=
  ((gate_removals usage to_remove).2).map (fun l => l.name)

/-! ## File staging (src/src/app.rs lines 63-66 and 98-135) -/

/-- `RepoFile` from github.rs. -/
structure RepoFile where
  sha : String
  content : String
deriving DecidableEq, Repr

/-- The fields of the open governance pull request used by staging. -/
structure PullRequestInfo where
  number : Nat
  head_ref : String
deriving DecidableEq, Repr

/-- The read-only remote state the staging code observes, as the results of
the two GitHub calls it makes: `get_file(repo, path, ref)` (a `None` ref
means the repository's default branch) and `list_github_files(repo,
branch, prefix)` (whose errors the source folds to an empty list with
`unwrap_or_default`, modelled by the `Option` result). -/
structure GithubRemote where
  get_file : String → Option String → Option RepoFile
  list_github_files : String → String → Option (List String)

/-- app.rs line 66: the comparison branch is the existing open governance
PR's head branch when present, else `None`. -/
def compare_branch_of (existing_pr : Option PullRequestInfo) : Option String :=
  existing_pr.map (fun pr => pr.head_ref)

/-- Rust `str::starts_with`, character-wise. -/
def strStartsWith (s pat : String) : Bool := pat.data.isPrefixOf s.data

/-- Index of the first occurrence of `pat` (Rust `str::find`). -/
def findSub (pat : List Char) : List Char → Option Nat
  | [] => if pat = [] then some 0 else none
  | c :: rest =>
    if pat.isPrefixOf (c :: rest) then some 0
    else (findSub pat rest).map (fun n => n + 1)

/-- `short_github_path` from app.rs lines 688-694: keep the suffix starting
at the first occurrence of `".github/"`, else the path unchanged. -/
def short_github_path (path : String) : String :=
  match findSub ".github/".data path.data with
  | some idx => ⟨path.data.drop idx⟩
  | none => path

/-- The add/update classification loop over the desired templates
(app.rs lines 101-112), in desired order. -/
def stage_desired (gh : GithubRemote) (cb : Option String) :
    List IssueTemplateFile → List IssueTemplateFile × List (IssueTemplateFile × String)
  | [] => ([], [])
  | tpl :: rest =>
    let tail := stage_desired gh cb rest
    match gh.get_file tpl.path cb with
    | none => (tpl :: tail.1, tail.2)
    | some file =>
      if file.content ≠ tpl.contents then (tail.1, (tpl, file.sha) :: tail.2)
      else tail

/-- The inner removal scan (app.rs lines 118-131) over the listed paths. -/
def collectRemovalFiles (gh : GithubRemote) (desired : List IssueTemplateFile)
    (branch_ref : String) : List String → List (String × String)
  | [] => []
  | path :: rest =>
    if strStartsWith path ".github/ISSUE_TEMPLATE/"
        ∧ ¬ (desired.any (fun t => short_github_path t.path == path)) then
      match gh.get_file path (some branch_ref) with
      | some file => (path, file.sha) :: collectRemovalFiles gh desired branch_ref rest
      | none => collectRemovalFiles gh desired branch_ref rest
    else collectRemovalFiles gh desired branch_ref rest

/-- The removal detection of app.rs lines 113-132: it runs only inside
`if let Some(branch_ref) = compare_branch`, listing `.github/` files on
that branch. -/
def stage_removals (gh : GithubRemote) (desired : List IssueTemplateFile) :
    Option String → List (String × String)
  | none => []
  | some branch_ref =>
    collectRemovalFiles gh desired branch_ref
      ((gh.list_github_files branch_ref ".github/").getD [])

/-- The staged `.github` file actions of one repository. -/
structure StagedFiles where
  add : List IssueTemplateFile
  update : List (IssueTemplateFile × String)
  remove : List (String × String)
deriving DecidableEq, Repr

/-- The file-staging portion of `handle_repos` (app.rs lines 98-135), taking
the already-synthesized desired template set as input. -/
def stage_templates (gh : GithubRemote) (desired_templates : List IssueTemplateFile)
    (compare_branch : Option String) : StagedFiles :=
  let au := stage_desired gh compare_branch desired_templates
  { add := au.1, update := au.2,
    remove := stage_removals gh desired_templates compare_branch }

/-! ## Orchestrator resolution phase (src/src/app.rs, `prepare_merged`) -/

/-- `RepoConfig` from config.rs (the repository list entries). -/
structure RepoConfig where
  name : String
  sets : List String
deriving DecidableEq, Repr

/-- `RootConfig` from config.rs; the fields `prepare_merged` does not read
(`org`, `config_sets_dir`, `token_env_var`, `org_defaults`) are omitted. -/
structure RootConfig where
  default_sets : List String
  repos : List RepoConfig
deriving Repr

/-- The error type `prepare_merged` produces (`Error::MergeConflict` from
error.rs). -/
inductive AppError
  | MergeConflict (repo : String) (reason : String)
deriving DecidableEq, Repr

/-- The inner template scan of `detect_template_conflicts` over one set,
threading the `seen` map (normalized path ↦ (contents, set name)). -/
def detectInSet (setName : String) (seen : List (String × (String × String))) :
    List IssueTemplateFile → Except String (List (String × (String × String)))
  | [] => .ok seen
  | tpl :: rest =>
    let key := short_github_path tpl.path
    match alookup key seen with
    | some existing =>
      if existing.1 ≠ tpl.contents then
        .error ("conflicting .github file '" ++ key ++ "' between sets '" ++ existing.2
          ++ "' and '" ++ setName ++ "'")
      else detectInSet setName seen rest
    | none => detectInSet setName (ainsert key (tpl.contents, setName) seen) rest

/-- The outer loop of `detect_template_conflicts` (app.rs lines 841-859). -/
def detectLoop (seen : List (String × (String × String))) :
    List SetDefinition → Except String Unit
  | [] => .ok ()
  | s :: rest =>
    match detectInSet s.name seen s.issue_templates with
    | .error e => .error e
    | .ok seen2 => detectLoop seen2 rest

/-- `detect_template_conflicts` from app.rs: identical contents at the same
normalized path are tolerated, differing contents are an error. -/
def detect_template_conflicts (sets : List SetDefinition) : Except String Unit :=
  detectLoop [] sets

/-- The `for repo in root.repos` loop of `prepare_merged` (app.rs lines
797-836). `loadSet` stands for the cached `sets::load_set` result per set
name (the cache is referentially transparent, so it is a pure lookup; a
load failure also aborts the whole run via `?` and is orthogonal to the
merge-conflict claims). A conflict returns immediately: the loop does not
continue with the remaining repositories. -/
def prepareLoop (loadSet : String → SetDefinition) (only_repos : List String)
    (default_sets : List String) :
    List RepoConfig → Except AppError (List (String × MergedRepoConfig))
  | [] => .ok []
  | repo :: rest =>
    if only_repos ≠ [] ∧ repo.name ∉ only_repos then
      prepareLoop loadSet only_repos default_sets rest
    else
      if (default_sets ++ repo.sets).map loadSet = [] then
        prepareLoop loadSet only_repos default_sets rest
      else
        match detect_template_conflicts ((default_sets ++ repo.sets).map loadSet) with
        | .error reason => .error (.MergeConflict repo.name reason)
        | .ok _ =>
          match merge_sets_for_repo ((default_sets ++ repo.sets).map loadSet) with
          | .error err => .error (.MergeConflict repo.name (mergeErrorMessage err))
          | .ok m =>
            match prepareLoop loadSet only_repos default_sets rest with
            | .error e => .error e
            | .ok tail => .ok ((repo.name, m) :: tail)

/-- `prepare_merged` from app.rs lines 789-839. -/
def prepare_merged (loadSet : String → SetDefinition) (root : RootConfig)
    (only_repos : List String) : Except AppError (List (String × MergedRepoConfig)) :=
  prepareLoop loadSet only_repos root.default_sets root.repos

example :
    merge_sets_for_repo
      [⟨"a", [⟨"bug", some "ff0000", none⟩], [], none, none, none⟩,
       ⟨"b", [⟨"bug", some "00ff00", none⟩], [], none, none, none⟩] =
      .error (.LabelConflict "bug") := by decide

example :
    merge_sets_for_repo
      [⟨"a", [⟨"bug", some "ff0000", some "A bug"⟩], [], none, none, none⟩,
       ⟨"b", [⟨"feature", none, none⟩], [], none, none, none⟩] =
      .ok ⟨[⟨"bug", some "ff0000", some "A bug"⟩, ⟨"feature", none, none⟩],
           [], none, none, none⟩ := by decide

/-! ## Lemmas about the association-list map -/

theorem alookup_ainsert_self {α : Type} (k : String) (v : α) (m : List (String × α)) :
    alookup k (ainsert k v m) = some v := by
  induction m with
  | nil => simp [ainsert, alookup]
  | cons hd tl ih =>
    obtain ⟨k2, v2⟩ := hd
    by_cases h : k2 = k
    · simp [ainsert, alookup, h]
    · simp [ainsert, alookup, h, ih]

theorem alookup_ainsert_ne {α : Type} {k k2 : String} (hne : k2 ≠ k) (v : α)
    (m : List (String × α)) : alookup k2 (ainsert k v m) = alookup k2 m := by
  induction m with
  | nil => simp [ainsert, alookup, Ne.symm hne]
  | cons hd tl ih =>
    obtain ⟨k3, v3⟩ := hd
    by_cases h : k3 = k
    · subst h
      simp [ainsert, alookup, Ne.symm hne]
    · simp only [ainsert, if_neg h, alookup]
      by_cases h2 : k3 = k2 <;> simp [h2, ih]

theorem ainsert_self_of_alookup {α : Type} {k : String} {v : α} :
    ∀ {m : List (String × α)}, alookup k m = some v → ainsert k v m = m := by
  intro m
  induction m with
  | nil => intro h; simp [alookup] at h
  | cons hd tl ih =>
    obtain ⟨k2, v2⟩ := hd
    intro h
    by_cases h2 : k2 = k
    · subst h2
      simp [alookup] at h
      simp [ainsert, h]
    · simp [alookup, h2] at h
      simp [ainsert, h2, ih h]

/-! ## C5: merge_branch_rule is field-by-field "desired wins, unset preserves current" -/

theorem if_none_or {α : Type} [DecidableEq α] (a b : Option α) :
    (if a = none then b else a) = a.or b := by
  cases a <;> simp [Option.or]

/-- C5: for every desired branch-protection rule and optional current rule,
`merge_branch_rule` is field-by-field: each optional field of the result is
the desired value when set, else the current rule's value (with an absent
current rule every field stays as in desired); the pattern is desired's. -/
theorem C5_merge_branch_rule_field_by_field (desired : BranchProtectionRule)
    (current : Option BranchProtectionRule) :
    (merge_branch_rule desired current).pattern = desired.pattern ∧
    (merge_branch_rule desired current).required_status_checks =
      (desired.required_status_checks).or
        (current.bind fun c => c.required_status_checks) ∧
    (merge_branch_rule desired current).required_pull_request_reviews =
      (desired.required_pull_request_reviews).or
        (current.bind fun c => c.required_pull_request_reviews) ∧
    (merge_branch_rule desired current).enforce_admins =
      (desired.enforce_admins).or (current.bind fun c => c.enforce_admins) ∧
    (merge_branch_rule desired current).restrictions =
      (desired.restrictions).or (current.bind fun c => c.restrictions) ∧
    (merge_branch_rule desired current).allow_force_pushes =
      (desired.allow_force_pushes).or (current.bind fun c => c.allow_force_pushes) ∧
    (merge_branch_rule desired current).allow_deletions =
      (desired.allow_deletions).or (current.bind fun c => c.allow_deletions) ∧
    (merge_branch_rule desired current).block_creations =
      (desired.block_creations).or (current.bind fun c => c.block_creations) ∧
    (merge_branch_rule desired current).require_linear_history =
      (desired.require_linear_history).or
        (current.bind fun c => c.require_linear_history) ∧
    (merge_branch_rule desired current).required_conversation_resolution =
      (desired.required_conversation_resolution).or
        (current.bind fun c => c.required_conversation_resolution) ∧
    (merge_branch_rule desired current).required_signatures =
      (desired.required_signatures).or (current.bind fun c => c.required_signatures) := by
  cases current with
  | none =>
    simp [merge_branch_rule, Option.or_none]
  | some cur =>
    simp [merge_branch_rule, if_none_or]

/-! ## C4: blocked label removals are never deleted -/

theorem gate_removals_fst_mem (usage : String → Option (List LabelUsageEntry))
    (to_remove : List LabelSpec) (l : LabelSpec) (u : List LabelUsageEntry) :
    (l, u) ∈ (gate_removals usage to_remove).1 ↔
      l ∈ to_remove ∧ usage l.name = some u := by
  induction to_remove with
  | nil => simp [gate_removals]
  | cons hd tl ih =>
    cases h : usage hd.name with
    | some u2 =>
      simp only [gate_removals, h, List.mem_cons, Prod.mk.injEq, ih]
      constructor
      · rintro (⟨rfl, rfl⟩ | ⟨hm, hu⟩)
        · exact ⟨Or.inl rfl, h⟩
        · exact ⟨Or.inr hm, hu⟩
      · rintro ⟨(rfl | hm), hu⟩
        · exact Or.inl ⟨rfl, by rw [h] at hu; injection hu with hh; exact hh.symm⟩
        · exact Or.inr ⟨hm, hu⟩
    | none =>
      simp only [gate_removals, h, ih, List.mem_cons]
      constructor
      · rintro ⟨hm, hu⟩; exact ⟨Or.inr hm, hu⟩
      · rintro ⟨(rfl | hm), hu⟩
        · rw [h] at hu; cases hu
        · exact ⟨hm, hu⟩

theorem gate_removals_snd_mem (usage : String → Option (List LabelUsageEntry))
    (to_remove : List LabelSpec) (l : LabelSpec) :
    l ∈ (gate_removals usage to_remove).2 ↔ l ∈ to_remove ∧ usage l.name = none := by
  induction to_remove with
  | nil => simp [gate_removals]
  | cons hd tl ih =>
    cases h : usage hd.name with
    | some u2 =>
      simp only [gate_removals, h, ih, List.mem_cons]
      constructor
      · rintro ⟨hm, hu⟩; exact ⟨Or.inr hm, hu⟩
      · rintro ⟨(rfl | hm), hu⟩
        · rw [h] at hu; cases hu
        · exact ⟨hm, hu⟩
    | none =>
      simp only [gate_removals, h, ih, List.mem_cons]
      constructor
      · rintro (rfl | ⟨hm, hu⟩)
        · exact ⟨Or.inl rfl, h⟩
        · exact ⟨Or.inr hm, hu⟩
      · rintro ⟨(rfl | hm), hu⟩
        · exact Or.inl rfl
        · exact Or.inr ⟨hm, hu⟩

/-- C4: in apply mode, a label of `to_remove` whose usage query returns
`Some` is reported in `blocked_removals`, its name is never passed to
`delete_label` (the delete call list is exactly `removable`), and every
actually deleted label had no usage. The gate returns plain data: blocked
entries are reporting output, not an error. -/
theorem C4_blocked_removals_never_deleted
    (usage : String → Option (List LabelUsageEntry)) (to_remove : List LabelSpec)
    (l : LabelSpec) (u : List LabelUsageEntry)
    (hmem : l ∈ to_remove) (husage : usage l.name = some u) :
    (l, u) ∈ (gate_removals usage to_remove).1 ∧
    l.name ∉ apply_delete_calls usage to_remove ∧
    ∀ l2 ∈ (gate_removals usage to_remove).2, usage l2.name = none := by
  refine ⟨(gate_removals_fst_mem usage to_remove l u).mpr ⟨hmem, husage⟩, ?_, ?_⟩
  · intro hdel
    obtain ⟨l2, hl2, hname⟩ := List.mem_map.mp hdel
    have h2 := ((gate_removals_snd_mem usage to_remove l2).mp hl2).2
    rw [hname] at h2
    rw [husage] at h2
    cases h2
  · intro l2 hl2
    exact ((gate_removals_snd_mem usage to_remove l2).mp hl2).2

def c4Usage : String → Option (List LabelUsageEntry) := fun n =>
  if n = "stale" then some [⟨7, some "https://example.com/7", false⟩] else none

def c4ToRemove : List LabelSpec :=
  [⟨"old", some "aaaaaa", none⟩, ⟨"stale", some "bbbbbb", some "stale label"⟩]

/-- Witness for C4 at a concrete gate input: the label `stale` with one open
issue is blocked and absent from the delete calls. -/
theorem C4_witness :
    ((⟨"stale", some "bbbbbb", some "stale label"⟩ : LabelSpec),
        [(⟨7, some "https://example.com/7", false⟩ : LabelUsageEntry)]) ∈
      (gate_removals c4Usage c4ToRemove).1 ∧
    "stale" ∉ apply_delete_calls c4Usage c4ToRemove ∧
    ∀ l2 ∈ (gate_removals c4Usage c4ToRemove).2, c4Usage l2.name = none :=
  C4_blocked_removals_never_deleted c4Usage c4ToRemove
    ⟨"stale", some "bbbbbb", some "stale label"⟩
    [⟨7, some "https://example.com/7", false⟩] (by decide) (by decide)

/-! ## C10: conflict detection applies within a single set -/

/-- C10: the merge primitive detects conflicts inside one set too: a single
set with two differing label definitions under one name merges to a
`LabelConflict`, and a single set with two template entries at one path
(even with identical contents) merges to a `TemplateConflict`. -/
theorem C10_intra_set_conflicts :
    (∀ (l1 l2 : LabelSpec) (s : SetDefinition),
        s.labels = [l1, l2] → l1.name = l2.name → l1 ≠ l2 →
        merge_sets_for_repo [s] = .error (.LabelConflict l2.name)) ∧
    (∀ (t1 t2 : IssueTemplateFile) (s : SetDefinition),
        s.labels = [] → s.issue_templates = [t1, t2] → t1.path = t2.path →
        merge_sets_for_repo [s] = .error (.TemplateConflict t2.path)) := by
  constructor
  · intro l1 l2 s hlabels hname hne
    simp [merge_sets_for_repo, mergeSets, mergeSet, hlabels, insertLabels, insertLabel,
      alookup, ainsert, hname, hne]
  · intro t1 t2 s hlabels htpls hpath
    simp [merge_sets_for_repo, mergeSets, mergeSet, hlabels, htpls, insertLabels,
      insertTemplates, insertTemplate, alookup, ainsert, hpath]

def c10Set : SetDefinition :=
  ⟨"a", [⟨"bug", some "ff0000", none⟩, ⟨"bug", some "00ff00", none⟩], [], none, none, none⟩

def c10TplSet : SetDefinition :=
  ⟨"a", [],
   [⟨".github/ISSUE_TEMPLATE/bug.yml", "same"⟩, ⟨".github/ISSUE_TEMPLATE/bug.yml", "same"⟩],
   none, none, none⟩

/-- Witness for C10: one set with two differing `bug` definitions conflicts;
one set with the same template path twice (identical contents) conflicts. -/
theorem C10_witness :
    merge_sets_for_repo [c10Set] = .error (.LabelConflict "bug") ∧
    merge_sets_for_repo [c10TplSet] =
      .error (.TemplateConflict ".github/ISSUE_TEMPLATE/bug.yml") :=
  ⟨C10_intra_set_conflicts.1 ⟨"bug", some "ff0000", none⟩ ⟨"bug", some "00ff00", none⟩
      c10Set rfl rfl (by decide),
   C10_intra_set_conflicts.2 ⟨".github/ISSUE_TEMPLATE/bug.yml", "same"⟩
      ⟨".github/ISSUE_TEMPLATE/bug.yml", "same"⟩ c10TplSet rfl rfl rfl⟩

/-! ## C2: label redefinition conflicts are decided by exact structural
equality, not by color-normalized equality -/

def c2SetA : SetDefinition :=
  ⟨"a", [⟨"bug", some "#FF0000", some "A bug"⟩], [], none, none, none⟩

def c2SetB : SetDefinition :=
  ⟨"b", [⟨"bug", some "ff0000", some "A bug"⟩], [], none, none, none⟩

/-- C2 counterexample: the two `bug` definitions are identical up to color
normalization (same name, same description, `normalize_color` maps
`"#FF0000"` and `"ff0000"` to the same value), yet the merge is a
`LabelConflict "bug"`, not a no-op: the merge compares colors verbatim. -/
theorem C2_counterexample :
    normalize_color (some "#FF0000") = normalize_color (some "ff0000") ∧
    merge_sets_for_repo [c2SetA, c2SetB] = .error (.LabelConflict "bug") := by
  constructor
  · decide
  · decide

/-- C2 amended: inserting a second label definition under an existing name
is a `LabelConflict(name)` error if and only if the two definitions are
not *exactly* structurally equal (name, color option compared verbatim,
description); an exactly identical redefinition is a no-op (the map is
unchanged). -/
theorem C2_label_conflict_iff_exact_mismatch (m : List (String × LabelSpec))
    (l existing : LabelSpec) (h : alookup l.name m = some existing) :
    (insertLabel m l = .error (.LabelConflict l.name) ↔ existing ≠ l) ∧
    (existing = l → insertLabel m l = .ok m) := by
  constructor
  · by_cases hx : existing = l
    · simp [insertLabel, h, hx]
    · simp [insertLabel, h, hx]
  · intro hx
    subst hx
    simp [insertLabel, h, ainsert_self_of_alookup h]

/-- Witness for C2 at the counterexample's input: the map already holds
`bug ↦ {bug, "#FF0000", "A bug"}`; inserting `{bug, "ff0000", "A bug"}`
(equal up to color normalization, but not verbatim) is a conflict. -/
theorem C2_witness :
    (insertLabel [("bug", ⟨"bug", some "#FF0000", some "A bug"⟩)]
        ⟨"bug", some "ff0000", some "A bug"⟩ =
      .error (.LabelConflict "bug") ↔
      (⟨"bug", some "#FF0000", some "A bug"⟩ : LabelSpec) ≠
        ⟨"bug", some "ff0000", some "A bug"⟩) ∧
    ((⟨"bug", some "#FF0000", some "A bug"⟩ : LabelSpec) =
        ⟨"bug", some "ff0000", some "A bug"⟩ →
      insertLabel [("bug", ⟨"bug", some "#FF0000", some "A bug"⟩)]
          ⟨"bug", some "ff0000", some "A bug"⟩ =
        .ok [("bug", ⟨"bug", some "#FF0000", some "A bug"⟩)]) :=
  C2_label_conflict_iff_exact_mismatch
    [("bug", ⟨"bug", some "#FF0000", some "A bug"⟩)]
    ⟨"bug", some "ff0000", some "A bug"⟩
    ⟨"bug", some "#FF0000", some "A bug"⟩ rfl

/-! ## C6 and C7: diff_repo_settings entry accounting -/

/-- The five boolean pull-request fields `diff_repo_settings` checks. -/
inductive PrBoolField
  | allow_merge_commit
  | allow_squash_merge
  | allow_rebase_merge
  | allow_auto_merge
  | delete_branch_on_merge
deriving DecidableEq, Repr

/-- The diff entry name of each boolean field. -/
def prFieldName : PrBoolField → String
  | .allow_merge_commit => "allow_merge_commit"
  | .allow_squash_merge => "allow_squash_merge"
  | .allow_rebase_merge => "allow_rebase_merge"
  | .allow_auto_merge => "allow_auto_merge"
  | .delete_branch_on_merge => "delete_branch_on_merge"

/-- The accessor of each boolean field. -/
def prField : PrBoolField → PullRequestSettings → Option Bool
  | .allow_merge_commit, p => p.allow_merge_commit
  | .allow_squash_merge, p => p.allow_squash_merge
  | .allow_rebase_merge, p => p.allow_rebase_merge
  | .allow_auto_merge, p => p.allow_auto_merge
  | .delete_branch_on_merge, p => p.delete_branch_on_merge

theorem countP_check (p n : String) (w g : Option Bool) :
    (check n w g).countP (fun ch => ch.field == p) =
      if n = p then
        (match w with
         | none => 0
         | some t => if g = some t then 0 else 1)
      else 0 := by
  cases w with
  | none => simp [check]
  | some t =>
    by_cases hg : g = some t
    · simp [check, hg]
    · by_cases hnp : n = p
      · simp [check, hg, hnp]
      · simp [check, hg, hnp]

theorem check_mem_field (n : String) (w g : Option Bool) :
    ∀ ch ∈ check n w g, ch.field = n := by
  intro ch hch
  cases w with
  | none => simp [check] at hch
  | some t =>
    by_cases hg : g = some t
    · simp [check, hg] at hch
    · simp [check, hg] at hch
      simp [hch]

theorem mergeOptionChanges_fields (dpr : PullRequestSettings) :
    ∀ ch ∈ mergeOptionChanges dpr,
      ch.field = "merge_commit_message_option" ∧ ch.current = none := by
  intro ch hch
  cases hopt : dpr.merge_commit_message_option with
  | none => simp [mergeOptionChanges, hopt] at hch
  | some opt =>
    cases opt <;>
      simp [mergeOptionChanges, hopt, map_merge_message_option] at hch <;>
      simp [hch]

theorem squashOptionChanges_fields (dpr : PullRequestSettings) :
    ∀ ch ∈ squashOptionChanges dpr,
      ch.field = "squash_merge_option" ∧ ch.current = none := by
  intro ch hch
  cases hopt : dpr.squash_merge_option with
  | none => simp [squashOptionChanges, hopt] at hch
  | some opt =>
    cases opt <;>
      simp [squashOptionChanges, hopt, map_squash_option] at hch <;>
      simp [hch]

theorem countP_mergeOptionChanges (p : String) (dpr : PullRequestSettings) :
    (mergeOptionChanges dpr).countP (fun ch => ch.field == p) =
      if p = "merge_commit_message_option" then
        (if dpr.merge_commit_message_option = none then 0 else 1)
      else 0 := by
  cases hopt : dpr.merge_commit_message_option with
  | none => simp [mergeOptionChanges, hopt]
  | some opt =>
    by_cases hp : p = "merge_commit_message_option"
    · cases opt <;> simp [mergeOptionChanges, hopt, map_merge_message_option, hp]
    · cases opt <;>
        simp [mergeOptionChanges, hopt, map_merge_message_option, hp, Ne.symm hp]

theorem countP_squashOptionChanges (p : String) (dpr : PullRequestSettings) :
    (squashOptionChanges dpr).countP (fun ch => ch.field == p) =
      if p = "squash_merge_option" then
        (if dpr.squash_merge_option = none then 0 else 1)
      else 0 := by
  cases hopt : dpr.squash_merge_option with
  | none => simp [squashOptionChanges, hopt]
  | some opt =>
    by_cases hp : p = "squash_merge_option"
    · cases opt <;> simp [squashOptionChanges, hopt, map_squash_option, hp]
    · cases opt <;>
        simp [squashOptionChanges, hopt, map_squash_option, hp, Ne.symm hp]

/-- C6: `diff_repo_settings` considers exactly the boolean fields set in
`desired.pull_requests`: for each boolean field, the number of change
entries carrying its name is 0 when the desired field is unset, and is 1
exactly when it is set and the observed value (current pull-request
settings, if any) differs from the desired value. -/
theorem C6_bool_field_entries (d c : RepoSettings) (dpr : PullRequestSettings)
    (hd : d.pull_requests = some dpr) (f : PrBoolField) :
    (diff_repo_settings d c).changes.countP (fun ch => ch.field == prFieldName f) =
      (match prField f dpr with
       | none => 0
       | some target =>
         if c.pull_requests.bind (fun p => prField f p) = some target then 0 else 1) := by
  cases f <;>
    simp [diff_repo_settings, hd, List.countP_append, countP_check,
      countP_mergeOptionChanges, countP_squashOptionChanges, prFieldName, prField]

def c6Dpr : PullRequestSettings := ⟨some false, none, none, none, none, none, none⟩

def c6Desired : RepoSettings := ⟨some c6Dpr, none⟩

def c6Current : RepoSettings :=
  ⟨some ⟨some true, some true, some true, some false, none, none, none⟩, none⟩

/-- Witness for C6 at the spec scenario: desired sets only
`allow_merge_commit=false`; current has it `true` and three other fields
set; the diff is exactly one entry, for `allow_merge_commit`. -/
theorem C6_witness :
    (diff_repo_settings c6Desired c6Current).changes.countP
        (fun ch => ch.field == prFieldName PrBoolField.allow_merge_commit) =
      (match prField PrBoolField.allow_merge_commit c6Dpr with
       | none => 0
       | some target =>
         if c6Current.pull_requests.bind
              (fun p => prField PrBoolField.allow_merge_commit p) = some target then 0
         else 1) ∧
    (diff_repo_settings c6Desired c6Current).changes =
      [⟨"allow_merge_commit", some "true", "false"⟩] :=
  ⟨C6_bool_field_entries c6Desired c6Current c6Dpr rfl PrBoolField.allow_merge_commit,
   by decide⟩

/-- C7: whenever `merge_commit_message_option` or `squash_merge_option` is
set in the desired pull-request settings, `diff_repo_settings` emits
exactly one change entry for that field, whose reported current value is
`None` — unconditionally, for every observed remote state `c`. -/
theorem C7_option_fields_always_emit (d c : RepoSettings) (dpr : PullRequestSettings)
    (hd : d.pull_requests = some dpr) :
    (∀ opt, dpr.merge_commit_message_option = some opt →
      (diff_repo_settings d c).changes.countP
          (fun ch => ch.field == "merge_commit_message_option") = 1 ∧
      ∀ ch ∈ (diff_repo_settings d c).changes,
        ch.field = "merge_commit_message_option" → ch.current = none) ∧
    (∀ opt, dpr.squash_merge_option = some opt →
      (diff_repo_settings d c).changes.countP
          (fun ch => ch.field == "squash_merge_option") = 1 ∧
      ∀ ch ∈ (diff_repo_settings d c).changes,
        ch.field = "squash_merge_option" → ch.current = none) := by
  constructor
  · intro opt hopt
    constructor
    · simp [diff_repo_settings, hd, List.countP_append, countP_check,
        countP_mergeOptionChanges, countP_squashOptionChanges, hopt]
    · intro ch hch hfield
      simp only [diff_repo_settings, hd, List.mem_append] at hch
      rcases hch with ((((((h | h) | h) | h) | h) | h) | h)
      · exact absurd (check_mem_field _ _ _ ch h ▸ hfield) (by decide)
      · exact absurd (check_mem_field _ _ _ ch h ▸ hfield) (by decide)
      · exact absurd (check_mem_field _ _ _ ch h ▸ hfield) (by decide)
      · exact absurd (check_mem_field _ _ _ ch h ▸ hfield) (by decide)
      · exact absurd (check_mem_field _ _ _ ch h ▸ hfield) (by decide)
      · exact (mergeOptionChanges_fields dpr ch h).2
      · exact absurd ((squashOptionChanges_fields dpr ch h).1 ▸ hfield) (by decide)
  · intro opt hopt
    constructor
    · simp [diff_repo_settings, hd, List.countP_append, countP_check,
        countP_mergeOptionChanges, countP_squashOptionChanges, hopt]
    · intro ch hch hfield
      simp only [diff_repo_settings, hd, List.mem_append] at hch
      rcases hch with ((((((h | h) | h) | h) | h) | h) | h)
      · exact absurd (check_mem_field _ _ _ ch h ▸ hfield) (by decide)
      · exact absurd (check_mem_field _ _ _ ch h ▸ hfield) (by decide)
      · exact absurd (check_mem_field _ _ _ ch h ▸ hfield) (by decide)
      · exact absurd (check_mem_field _ _ _ ch h ▸ hfield) (by decide)
      · exact absurd (check_mem_field _ _ _ ch h ▸ hfield) (by decide)
      · exact absurd ((mergeOptionChanges_fields dpr ch h).1 ▸ hfield) (by decide)
      · exact (squashOptionChanges_fields dpr ch h).2

def c7Dpr : PullRequestSettings :=
  ⟨none, none, none, none, none, some .PullRequestTitle, some .DefaultMessage⟩

def c7Desired : RepoSettings := ⟨some c7Dpr, none⟩

def c7Current : RepoSettings :=
  ⟨some ⟨some true, some false, none, none, some true, none, none⟩, none⟩

/-- Witness for C7: with both option fields set in desired and a concrete
remote state, each option field gets exactly one entry with current
reported as unset. -/
theorem C7_witness :
    ((diff_repo_settings c7Desired c7Current).changes.countP
        (fun ch => ch.field == "merge_commit_message_option") = 1 ∧
      ∀ ch ∈ (diff_repo_settings c7Desired c7Current).changes,
        ch.field = "merge_commit_message_option" → ch.current = none) ∧
    ((diff_repo_settings c7Desired c7Current).changes.countP
        (fun ch => ch.field == "squash_merge_option") = 1 ∧
      ∀ ch ∈ (diff_repo_settings c7Desired c7Current).changes,
        ch.field = "squash_merge_option" → ch.current = none) :=
  ⟨(C7_option_fields_always_emit c7Desired c7Current c7Dpr rfl).1
      MergeCommitMessageOption.PullRequestTitle rfl,
   (C7_option_fields_always_emit c7Desired c7Current c7Dpr rfl).2
      SquashMergeOption.DefaultMessage rfl⟩

/-! ## C1: a merge conflict aborts the whole run, not only that repository -/

def c1SetA : SetDefinition :=
  ⟨"a", [⟨"bug", some "ff0000", some "A bug"⟩], [], none, none, none⟩

def c1SetB : SetDefinition :=
  ⟨"b", [⟨"bug", some "00ff00", some "A bug"⟩], [], none, none, none⟩

def c1Load : String → SetDefinition := fun n => if n = "b" then c1SetB else c1SetA

def c1Root : RootConfig := ⟨[], [⟨"r1", ["a", "b"]⟩, ⟨"r2", ["a"]⟩]⟩

def c1RootOk : RootConfig := ⟨[], [⟨"r2", ["a"]⟩]⟩

def c1MergedA : MergedRepoConfig :=
  ⟨[⟨"bug", some "ff0000", some "A bug"⟩], [], none, none, none⟩

/-- C1 counterexample: repository `r1`'s sets conflict on `bug` while `r2`'s
single set merges fine on its own, yet `prepare_merged` for the batch
`[r1, r2]` returns a global `MergeConflict` error: no per-repository
results are produced at all, so `r2` is not processed — the batch does not
continue past the conflicting repository. -/
theorem C1_counterexample :
    merge_sets_for_repo [c1SetA] = .ok c1MergedA ∧
    prepare_merged c1Load c1Root [] =
      .error (.MergeConflict "r1"
        "label conflict for 'bug' between sets; definitions differ") ∧
    ∀ l, prepare_merged c1Load c1Root [] ≠ .ok l := by
  refine ⟨by decide, by decide, ?_⟩
  intro l h
  have he : prepare_merged c1Load c1Root [] =
      .error (.MergeConflict "r1"
        "label conflict for 'bug' between sets; definitions differ") := by decide
  rw [he] at h
  exact Except.noConfusion h

theorem prepareLoop_ok_merges (loadSet : String → SetDefinition)
    (only_repos default_sets : List String) :
    ∀ (repos : List RepoConfig) (l : List (String × MergedRepoConfig)),
      prepareLoop loadSet only_repos default_sets repos = .ok l →
      ∀ repo ∈ repos, (only_repos = [] ∨ repo.name ∈ only_repos) →
        (default_sets ++ repo.sets).map loadSet ≠ [] →
        ∃ m, merge_sets_for_repo ((default_sets ++ repo.sets).map loadSet) = .ok m ∧
          (repo.name, m) ∈ l := by
  intro repos
  induction repos with
  | nil =>
    intro l h repo hmem
    simp at hmem
  | cons hd tl ih =>
    intro l h repo hmem hsel hne
    by_cases hskip : only_repos ≠ [] ∧ hd.name ∉ only_repos
    · rw [show prepareLoop loadSet only_repos default_sets (hd :: tl) =
          prepareLoop loadSet only_repos default_sets tl from if_pos hskip] at h
      rcases List.mem_cons.mp hmem with rfl | hmem2
      · exact absurd hsel (by rcases hskip with ⟨h1, h2⟩; rintro (h3 | h3) <;> simp_all)
      · exact ih l h repo hmem2 hsel hne
    · rw [show prepareLoop loadSet only_repos default_sets (hd :: tl) =
          (if (default_sets ++ hd.sets).map loadSet = [] then
            prepareLoop loadSet only_repos default_sets tl
          else
            match detect_template_conflicts ((default_sets ++ hd.sets).map loadSet) with
            | .error reason => .error (.MergeConflict hd.name reason)
            | .ok _ =>
              match merge_sets_for_repo ((default_sets ++ hd.sets).map loadSet) with
              | .error err => .error (.MergeConflict hd.name (mergeErrorMessage err))
              | .ok m =>
                match prepareLoop loadSet only_repos default_sets tl with
                | .error e => .error e
                | .ok tail => .ok ((hd.name, m) :: tail)) from if_neg hskip] at h
      by_cases hempty : (default_sets ++ hd.sets).map loadSet = []
      · rw [if_pos hempty] at h
        rcases List.mem_cons.mp hmem with rfl | hmem2
        · exact absurd hempty hne
        · exact ih l h repo hmem2 hsel hne
      · rw [if_neg hempty] at h
        cases hdet : detect_template_conflicts ((default_sets ++ hd.sets).map loadSet) with
        | error e => rw [hdet] at h; exact Except.noConfusion h
        | ok u =>
          rw [hdet] at h
          cases hmerge : merge_sets_for_repo ((default_sets ++ hd.sets).map loadSet) with
          | error e => rw [hmerge] at h; exact Except.noConfusion h
          | ok m =>
            rw [hmerge] at h
            cases hrec : prepareLoop loadSet only_repos default_sets tl with
            | error e => rw [hrec] at h; exact Except.noConfusion h
            | ok tail =>
              rw [hrec] at h
              have hl : l = (hd.name, m) :: tail := (Except.ok.injEq _ _).mp h.symm ▸ rfl
              rcases List.mem_cons.mp hmem with rfl | hmem2
              · exact ⟨m, hmerge, hl ▸ List.mem_cons_self _ _⟩
              · obtain ⟨m2, hm2, hmem3⟩ := ih tail hrec repo hmem2 hsel hne
                exact ⟨m2, hm2, hl ▸ List.mem_cons_of_mem _ hmem3⟩

/-- C1 amended: a resolution or merge conflict in any repository aborts the
entire run: `prepare_merged` performs all merging up front and returns the
first error, producing no per-repository results. Equivalently (proved
here), batch success requires every selected repository's merge to
succeed, and then each one's merged config is in the result. -/
theorem C1_batch_success_requires_every_merge (loadSet : String → SetDefinition)
    (root : RootConfig) (only_repos : List String)
    (l : List (String × MergedRepoConfig))
    (hok : prepare_merged loadSet root only_repos = .ok l) :
    ∀ repo ∈ root.repos, (only_repos = [] ∨ repo.name ∈ only_repos) →
      (root.default_sets ++ repo.sets).map loadSet ≠ [] →
      ∃ m, merge_sets_for_repo ((root.default_sets ++ repo.sets).map loadSet) = .ok m ∧
        (repo.name, m) ∈ l :=
  prepareLoop_ok_merges loadSet only_repos root.default_sets root.repos l hok

/-- Witness for C1's amended statement on the conflict-free one-repo batch. -/
theorem C1_witness :
    ∃ m, merge_sets_for_repo ((c1RootOk.default_sets ++ ["a"]).map c1Load) = .ok m ∧
      ("r2", m) ∈ [("r2", c1MergedA)] :=
  C1_batch_success_requires_every_merge c1Load c1RootOk [] [("r2", c1MergedA)]
    (by decide) ⟨"r2", ["a"]⟩ (by decide) (Or.inl rfl) (by decide)

/-! ## C3: file staging and the comparison branch -/

def c3Remote : GithubRemote :=
  ⟨fun path _ =>
      if path = ".github/ISSUE_TEMPLATE/old.yml" then some ⟨"sha-old", "old contents"⟩
      else none,
    fun _ pre =>
      if pre = ".github/" then some [".github/ISSUE_TEMPLATE/old.yml"] else some []⟩

/-- C3 counterexample: with no open update branch (`compare_branch = None`),
a file that exists remotely under `.github/ISSUE_TEMPLATE/` on the base
branch (it is listed there and `get_file` with no ref finds it) and is not
in the desired set produces NO remove action: the removal scan runs only
when an open update branch exists. -/
theorem C3_counterexample :
    compare_branch_of none = none ∧
    (c3Remote.list_github_files "main" ".github/").getD [] =
      [".github/ISSUE_TEMPLATE/old.yml"] ∧
    c3Remote.get_file ".github/ISSUE_TEMPLATE/old.yml" none =
      some ⟨"sha-old", "old contents"⟩ ∧
    strStartsWith ".github/ISSUE_TEMPLATE/old.yml" ".github/ISSUE_TEMPLATE/" = true ∧
    stage_templates c3Remote [] (compare_branch_of none) = ⟨[], [], []⟩ := by
  exact ⟨rfl, by decide, by decide, by decide, by decide⟩

theorem stage_desired_add_mem (gh : GithubRemote) (cb : Option String)
    (desired : List IssueTemplateFile) (tpl : IssueTemplateFile) :
    tpl ∈ (stage_desired gh cb desired).1 ↔
      tpl ∈ desired ∧ gh.get_file tpl.path cb = none := by
  induction desired with
  | nil => simp [stage_desired]
  | cons hd tl ih =>
    cases hf : gh.get_file hd.path cb with
    | none =>
      simp only [stage_desired, hf, List.mem_cons]
      constructor
      · rintro (rfl | h)
        · exact ⟨Or.inl rfl, hf⟩
        · have h2 := ih.mp h
          exact ⟨Or.inr h2.1, h2.2⟩
      · rintro ⟨(rfl | hm), hg⟩
        · exact Or.inl rfl
        · exact Or.inr (ih.mpr ⟨hm, hg⟩)
    | some file =>
      have hfst : (stage_desired gh cb (hd :: tl)).1 = (stage_desired gh cb tl).1 := by
        simp only [stage_desired, hf]
        by_cases hc : file.content ≠ hd.contents <;> simp [hc]
      rw [hfst, ih]
      constructor
      · rintro ⟨hm, hg⟩
        exact ⟨List.mem_cons_of_mem _ hm, hg⟩
      · rintro ⟨hmem, hg⟩
        rcases List.mem_cons.mp hmem with rfl | hm
        · rw [hf] at hg
          exact Option.noConfusion hg
        · exact ⟨hm, hg⟩

theorem stage_desired_update_mem (gh : GithubRemote) (cb : Option String)
    (desired : List IssueTemplateFile) (tpl : IssueTemplateFile) (sha : String) :
    (tpl, sha) ∈ (stage_desired gh cb desired).2 ↔
      tpl ∈ desired ∧ ∃ f, gh.get_file tpl.path cb = some f ∧
        f.content ≠ tpl.contents ∧ f.sha = sha := by
  induction desired with
  | nil => simp [stage_desired]
  | cons hd tl ih =>
    cases hf : gh.get_file hd.path cb with
    | none =>
      have hsnd : (stage_desired gh cb (hd :: tl)).2 = (stage_desired gh cb tl).2 := by
        simp [stage_desired, hf]
      rw [hsnd, ih]
      constructor
      · rintro ⟨hm, hg⟩
        exact ⟨List.mem_cons_of_mem _ hm, hg⟩
      · rintro ⟨hmem, f, hg, hrest⟩
        rcases List.mem_cons.mp hmem with rfl | hm
        · rw [hf] at hg
          exact Option.noConfusion hg
        · exact ⟨hm, f, hg, hrest⟩
    | some file =>
      by_cases hc : file.content ≠ hd.contents
      · have hsnd : (stage_desired gh cb (hd :: tl)).2 =
            (hd, file.sha) :: (stage_desired gh cb tl).2 := by
          simp [stage_desired, hf, hc]
        rw [hsnd]
        simp only [List.mem_cons, Prod.mk.injEq, ih]
        constructor
        · rintro (⟨rfl, rfl⟩ | ⟨hm, f, hg, hc2, hs⟩)
          · exact ⟨Or.inl rfl, file, hf, hc, rfl⟩
          · exact ⟨Or.inr hm, f, hg, hc2, hs⟩
        · rintro ⟨(rfl | hm), f, hg, hc2, hs⟩
          · rw [hf] at hg
            injection hg with hg2
            subst hg2
            exact Or.inl ⟨rfl, hs.symm⟩
          · exact Or.inr ⟨hm, f, hg, hc2, hs⟩
      · have hsnd : (stage_desired gh cb (hd :: tl)).2 = (stage_desired gh cb tl).2 := by
          simp [stage_desired, hf, hc]
        rw [hsnd, ih]
        constructor
        · rintro ⟨hm, hg⟩
          exact ⟨List.mem_cons_of_mem _ hm, hg⟩
        · rintro ⟨hmem, f, hg, hc2, hs⟩
          rcases List.mem_cons.mp hmem with rfl | hm
          · rw [hf] at hg
            injection hg with hg2
            subst hg2
            exact absurd hc2 hc
          · exact ⟨hm, f, hg, hc2, hs⟩

theorem collectRemovalFiles_mem (gh : GithubRemote) (desired : List IssueTemplateFile)
    (b : String) :
    ∀ (paths : List String) (p sha : String),
      (p, sha) ∈ collectRemovalFiles gh desired b paths ↔
        p ∈ paths ∧ strStartsWith p ".github/ISSUE_TEMPLATE/" = true ∧
        desired.any (fun t => short_github_path t.path == p) = false ∧
        ∃ f, gh.get_file p (some b) = some f ∧ f.sha = sha := by
  intro paths
  induction paths with
  | nil =>
    intro p sha
    simp [collectRemovalFiles]
  | cons hd tl ih =>
    intro p sha
    by_cases hcond : strStartsWith hd ".github/ISSUE_TEMPLATE/"
        ∧ ¬ (desired.any (fun t => short_github_path t.path == hd)) = true
    · cases hf : gh.get_file hd (some b) with
      | some file =>
        have hshape : collectRemovalFiles gh desired b (hd :: tl) =
            (hd, file.sha) :: collectRemovalFiles gh desired b tl := by
          simp [collectRemovalFiles, hcond, hf]
        rw [hshape]
        simp only [List.mem_cons, Prod.mk.injEq, ih]
        constructor
        · rintro (⟨rfl, rfl⟩ | ⟨hm, hrest⟩)
          · exact ⟨Or.inl rfl, hcond.1, Bool.not_eq_true _ ▸ (Bool.of_not_eq_true hcond.2),
              file, hf, rfl⟩
          · exact ⟨Or.inr hm, hrest⟩
        · rintro ⟨(rfl | hm), hstart, hany, f, hg, hs⟩
          · rw [hf] at hg
            injection hg with hg2
            subst hg2
            exact Or.inl ⟨rfl, hs.symm⟩
          · exact Or.inr ⟨hm, hstart, hany, f, hg, hs⟩
      | none =>
        have hshape : collectRemovalFiles gh desired b (hd :: tl) =
            collectRemovalFiles gh desired b tl := by
          simp [collectRemovalFiles, hcond, hf]
        rw [hshape, ih]
        constructor
        · rintro ⟨hm, hrest⟩
          exact ⟨List.mem_cons_of_mem _ hm, hrest⟩
        · rintro ⟨hmem, hstart, hany, f, hg, hs⟩
          rcases List.mem_cons.mp hmem with rfl | hm
          · rw [hf] at hg
            exact Option.noConfusion hg
          · exact ⟨hm, hstart, hany, f, hg, hs⟩
    · have hshape : collectRemovalFiles gh desired b (hd :: tl) =
          collectRemovalFiles gh desired b tl := by
        simp only [collectRemovalFiles, if_neg hcond]
      rw [hshape, ih]
      constructor
      · rintro ⟨hm, hrest⟩
        exact ⟨List.mem_cons_of_mem _ hm, hrest⟩
      · rintro ⟨hmem, hstart, hany, f, hg, hs⟩
        rcases List.mem_cons.mp hmem with rfl | hm
        · exact absurd ⟨hstart, by simp [hany]⟩ hcond
        · exact ⟨hm, hstart, hany, f, hg, hs⟩

/-- C3 amended: every desired file is compared against the remote tree on
the comparison branch — the existing open update branch when present, and
otherwise a `None` ref, which `get_file` resolves on the base (default)
branch; a remote file under `.github/ISSUE_TEMPLATE/` not in the desired
set produces a remove action with its SHA only when an open update branch
exists — with no open update branch the removal scan does not run and no
remove action is produced. -/
theorem C3_staging_characterization (gh : GithubRemote)
    (desired : List IssueTemplateFile) (pr : Option PullRequestInfo) :
    (∀ tpl, tpl ∈ (stage_templates gh desired (compare_branch_of pr)).add ↔
        tpl ∈ desired ∧ gh.get_file tpl.path (compare_branch_of pr) = none) ∧
    (∀ tpl sha, (tpl, sha) ∈ (stage_templates gh desired (compare_branch_of pr)).update ↔
        tpl ∈ desired ∧ ∃ f, gh.get_file tpl.path (compare_branch_of pr) = some f ∧
          f.content ≠ tpl.contents ∧ f.sha = sha) ∧
    (∀ p sha, (p, sha) ∈ (stage_templates gh desired (compare_branch_of pr)).remove ↔
        ∃ b, compare_branch_of pr = some b ∧
          p ∈ (gh.list_github_files b ".github/").getD [] ∧
          strStartsWith p ".github/ISSUE_TEMPLATE/" = true ∧
          desired.any (fun t => short_github_path t.path == p) = false ∧
          ∃ f, gh.get_file p (some b) = some f ∧ f.sha = sha) ∧
    (pr = none → (stage_templates gh desired (compare_branch_of pr)).remove = []) := by
  refine ⟨fun tpl => stage_desired_add_mem gh _ desired tpl,
    fun tpl sha => stage_desired_update_mem gh _ desired tpl sha, ?_, ?_⟩
  · intro p sha
    cases pr with
    | none =>
      simp [stage_templates, stage_removals, compare_branch_of]
    | some x =>
      have hcb : compare_branch_of (some x) = some x.head_ref := rfl
      rw [hcb]
      simp only [stage_templates, stage_removals]
      rw [collectRemovalFiles_mem]
      constructor
      · rintro ⟨hm, hrest⟩
        exact ⟨x.head_ref, rfl, hm, hrest⟩
      · rintro ⟨b, hb, hm, hrest⟩
        injection hb with hb2
        subst hb2
        exact ⟨hm, hrest⟩
  · rintro rfl
    rfl

/-- Witness for C3's amended statement: with no open update branch the
remove list is empty even though a stale remote template exists. -/
theorem C3_witness :
    (stage_templates c3Remote [] (compare_branch_of none)).remove = [] :=
  (C3_staging_characterization c3Remote [] none).2.2.2 rfl

/-! ## C9: diff_labels characterization -/

/-- The update predicate of `diff_labels`, on the first matching current
label. -/
def updatePred (current : List GhLabel) (w : LabelSpec) : Bool :=
  match current.find? (fun c => c.name == w.name) with
  | some existing => labelNeedsUpdate w existing
  | none => false

theorem collectAdds_eq_filter (current : List GhLabel) :
    ∀ desired : List LabelSpec,
      collectAdds current desired =
        desired.filter (fun w => !(current.any fun c => c.name == w.name)) := by
  intro desired
  induction desired with
  | nil => simp [collectAdds]
  | cons hd tl ih =>
    cases hf : current.find? (fun c => c.name == hd.name) with
    | none =>
      have hany : (current.any fun c => c.name == hd.name) = false := by
        rw [Bool.eq_false_iff]
        intro hany
        obtain ⟨c, hc, hcc⟩ := List.any_eq_true.mp hany
        exact List.find?_eq_none.mp hf c hc hcc
      simp [collectAdds, hf, List.filter_cons, hany, ih]
    | some c =>
      have hpc : (c.name == hd.name) = true :=
        @List.find?_some _ (fun c2 => c2.name == hd.name) c current hf
      have hany : (current.any fun c2 => c2.name == hd.name) = true :=
        List.any_eq_true.mpr ⟨c, List.mem_of_find?_eq_some hf, hpc⟩
      simp [collectAdds, hf, List.filter_cons, hany, ih]

theorem collectUpdates_eq_filter (current : List GhLabel) :
    ∀ desired : List LabelSpec,
      collectUpdates current desired = desired.filter (updatePred current) := by
  intro desired
  induction desired with
  | nil => simp [collectUpdates]
  | cons hd tl ih =>
    cases hf : current.find? (fun c => c.name == hd.name) with
    | none =>
      simp [collectUpdates, hf, List.filter_cons, updatePred, ih]
    | some c =>
      by_cases hu : labelNeedsUpdate hd c
      · simp [collectUpdates, hf, List.filter_cons, updatePred, hu, ih]
      · simp [collectUpdates, hf, List.filter_cons, updatePred, hu, ih]

theorem collectRemovals_eq_filter (desired : List LabelSpec) :
    ∀ current : List GhLabel,
      collectRemovals desired current =
        (current.filter (fun e => !(desired.any fun d => d.name == e.name))).map
          (fun e => { name := e.name, color := normalize_color (some e.color),
                      description := e.description }) := by
  intro current
  induction current with
  | nil => simp [collectRemovals]
  | cons hd tl ih =>
    by_cases hany : (desired.any fun d => d.name == hd.name) = true
    · simp [collectRemovals, hany, List.filter_cons, ih]
    · simp only [Bool.not_eq_true] at hany
      simp [collectRemovals, hany, List.filter_cons, ih]

def c9Desired : List LabelSpec :=
  [⟨"bug", some "#ff0000", some "bug"⟩, ⟨"new", none, none⟩]

def c9Current : List GhLabel :=
  [⟨"bug", "00ff00", some "bug"⟩, ⟨"old", "aaaaaa", some "old"⟩]

/-- C9: `diff_labels` returns exactly: `to_add` = desired labels whose name
is absent from current; `to_update` = desired labels whose name is present
(first match) with differing normalized color or description; `to_remove`
= current labels whose name is absent from desired, renormalized; each
sorted by name. At the spec scenario this gives `to_add=[new]`,
`to_update=[bug]`, `to_remove=[old]`. -/
theorem C9_diff_labels_characterization (desired : List LabelSpec)
    (current : List GhLabel) :
    diff_labels desired current =
      { to_add := sortLabels
          (desired.filter (fun w => !(current.any fun c => c.name == w.name)))
        to_update := sortLabels (desired.filter (updatePred current))
        to_remove := sortLabels
          ((current.filter (fun e => !(desired.any fun d => d.name == e.name))).map
            (fun e => { name := e.name, color := normalize_color (some e.color),
                        description := e.description })) } ∧
    diff_labels c9Desired c9Current =
      ⟨[⟨"new", none, none⟩], [⟨"bug", some "#ff0000", some "bug"⟩],
       [⟨"old", some "aaaaaa", some "old"⟩]⟩ := by
  constructor
  · rw [diff_labels, collectAdds_eq_filter, collectUpdates_eq_filter,
      collectRemovals_eq_filter]
  · decide

/-! ## C8 infrastructure: the name order -/

theorem charListLt_irrefl : ∀ l : List Char, charListLt l l = false := by
  intro l
  induction l with
  | nil => rfl
  | cons a as ih => simp [charListLt, lt_irrefl, ih]

theorem charListLt_asymm : ∀ {l1 l2 : List Char},
    charListLt l1 l2 = true → charListLt l2 l1 = false := by
  intro l1
  induction l1 with
  | nil =>
    intro l2 h
    cases l2 with
    | nil => simp [charListLt] at h
    | cons b bs => rfl
  | cons a as ih =>
    intro l2 h
    cases l2 with
    | nil => simp [charListLt] at h
    | cons b bs =>
      simp only [charListLt] at h ⊢
      by_cases hab : a < b
      · have hba : ¬ b < a := lt_asymm hab
        simp [hab, hba]
      · by_cases hba : b < a
        · rw [if_neg hab, if_pos hba] at h
          exact absurd h (by simp)
        · rw [if_neg hab, if_neg hba] at h
          rw [if_neg hba, if_neg hab]
          exact ih h

theorem charListLt_trans : ∀ {l1 l2 l3 : List Char},
    charListLt l1 l2 = true → charListLt l2 l3 = true → charListLt l1 l3 = true := by
  intro l1
  induction l1 with
  | nil =>
    intro l2 l3 h1 h2
    cases l2 with
    | nil => simp [charListLt] at h1
    | cons b bs =>
      cases l3 with
      | nil => simp [charListLt] at h2
      | cons c cs => rfl
  | cons a as ih =>
    intro l2 l3 h1 h2
    cases l2 with
    | nil => simp [charListLt] at h1
    | cons b bs =>
      cases l3 with
      | nil => simp [charListLt] at h2
      | cons c cs =>
        simp only [charListLt] at h1 h2 ⊢
        by_cases hab : a < b
        · by_cases hbc : b < c
          · simp [lt_trans hab hbc]
          · by_cases hcb : c < b
            · rw [if_neg hbc, if_pos hcb] at h2
              exact absurd h2 (by simp)
            · have hbceq : b = c := le_antisymm (not_lt.mp hcb) (not_lt.mp hbc)
              subst hbceq
              simp [hab]
        · by_cases hba : b < a
          · rw [if_neg hab, if_pos hba] at h1
            exact absurd h1 (by simp)
          · have habeq : a = b := le_antisymm (not_lt.mp hba) (not_lt.mp hab)
            subst habeq
            rw [if_neg (lt_irrefl a), if_neg (lt_irrefl a)] at h1
            by_cases hac : a < c
            · simp [hac]
            · by_cases hca : c < a
              · rw [if_neg hac, if_pos hca] at h2
                exact absurd h2 (by simp)
              · rw [if_neg hac, if_neg hca] at h2 ⊢
                exact ih h1 h2

theorem charListLt_connex : ∀ {l1 l2 : List Char},
    l1 ≠ l2 → charListLt l1 l2 = true ∨ charListLt l2 l1 = true := by
  intro l1
  induction l1 with
  | nil =>
    intro l2 hne
    cases l2 with
    | nil => exact absurd rfl hne
    | cons b bs => exact Or.inl rfl
  | cons a as ih =>
    intro l2 hne
    cases l2 with
    | nil => exact Or.inr rfl
    | cons b bs =>
      by_cases hab : a < b
      · exact Or.inl (by simp [charListLt, hab])
      · by_cases hba : b < a
        · exact Or.inr (by simp [charListLt, hba])
        · have heq : a = b := le_antisymm (not_lt.mp hba) (not_lt.mp hab)
          subst heq
          have htl : as ≠ bs := fun hh => hne (by rw [hh])
          rcases ih htl with h | h
          · exact Or.inl (by simp [charListLt, lt_irrefl, h])
          · exact Or.inr (by simp [charListLt, lt_irrefl, h])

theorem charListNotLt_trans {x y z : List Char} (h1 : charListLt y x = false)
    (h2 : charListLt z y = false) : charListLt z x = false := by
  by_cases hzx : charListLt z x = true
  · by_cases hyz : y = z
    · subst hyz
      exact absurd hzx (by simp [h1])
    · rcases charListLt_connex hyz with hlt | hlt
      · have hyx := charListLt_trans hlt hzx
        rw [h1] at hyx
        exact absurd hyx (by simp)
      · rw [h2] at hlt
        exact absurd hlt (by simp)
  · exact Bool.of_not_eq_true hzx

/-- The strict name order on label specs. -/
def labelLt (a b : LabelSpec) : Prop := strLtb a.name b.name = true

instance : IsTotal LabelSpec labelLe :=
  ⟨by
    intro a b
    by_cases h : charListLt a.name.data b.name.data = true
    · exact Or.inl (charListLt_asymm h)
    · exact Or.inr (Bool.of_not_eq_true h)⟩

instance : IsTrans LabelSpec labelLe :=
  ⟨by
    intro a b c h1 h2
    exact charListNotLt_trans h1 h2⟩

instance : IsAntisymm LabelSpec labelLt :=
  ⟨by
    intro a b h1 h2
    have h2b : charListLt b.name.data a.name.data = true := h2
    rw [charListLt_asymm h1] at h2b
    exact absurd h2b (by simp)⟩

theorem stringDataInj {s t : String} (h : s.data = t.data) : s = t := by
  cases s
  cases t
  exact congrArg String.mk h

theorem labelLt_of_le_ne {a b : LabelSpec} (hle : labelLe a b) (hne : a.name ≠ b.name) :
    labelLt a b := by
  have hdata : a.name.data ≠ b.name.data := fun h => hne (stringDataInj h)
  rcases charListLt_connex hdata with h | h
  · exact h
  · rw [show charListLt b.name.data a.name.data = false from hle] at h
    exact absurd h (by simp)

theorem sorted_labelLt_of_sorted_le {l : List LabelSpec} (hs : l.Sorted labelLe)
    (hn : (l.map (fun x => x.name)).Nodup) : l.Sorted labelLt := by
  have hpw : l.Pairwise (fun a b => a.name ≠ b.name) := List.pairwise_map.mp hn
  exact (hs.and hpw).imp (fun h => labelLt_of_le_ne h.1 h.2)

/-- Sorting by name is canonical on permutations with pairwise-distinct
names. -/
theorem sortLabels_eq_of_perm {l1 l2 : List LabelSpec} (hperm : l1.Perm l2)
    (hnames : (l1.map (fun x => x.name)).Nodup) : sortLabels l1 = sortLabels l2 := by
  have hp1 : (sortLabels l1).Perm l1 := List.perm_insertionSort labelLe l1
  have hp2 : (sortLabels l2).Perm l2 := List.perm_insertionSort labelLe l2
  have hp12 : (sortLabels l1).Perm (sortLabels l2) := hp1.trans (hperm.trans hp2.symm)
  have hnames2 : (l2.map (fun x => x.name)).Nodup :=
    ((hperm.map (fun x => x.name)).nodup_iff).mp hnames
  have hn1 : ((sortLabels l1).map (fun x => x.name)).Nodup :=
    ((hp1.map (fun x => x.name)).nodup_iff).mpr hnames
  have hn2 : ((sortLabels l2).map (fun x => x.name)).Nodup :=
    ((hp2.map (fun x => x.name)).nodup_iff).mpr hnames2
  exact List.eq_of_perm_of_sorted hp12
    (sorted_labelLt_of_sorted_le (List.sorted_insertionSort labelLe l1) hn1)
    (sorted_labelLt_of_sorted_le (List.sorted_insertionSort labelLe l2) hn2)

/-! ## C8 infrastructure: label-map invariants under the merge fold -/

/-- Every map entry's key is its label's name. -/
def GoodKeys (m : List (String × LabelSpec)) : Prop := ∀ e ∈ m, e.1 = e.2.name

theorem mem_keys_ainsert {α : Type} {x k : String} {v : α} :
    ∀ {m : List (String × α)},
      x ∈ (ainsert k v m).map Prod.fst → x ∈ m.map Prod.fst ∨ x = k := by
  intro m
  induction m with
  | nil =>
    intro h
    simp [ainsert] at h
    exact Or.inr h
  | cons hd tl ih =>
    obtain ⟨k2, v2⟩ := hd
    intro h
    by_cases hk : k2 = k
    · simp only [ainsert, if_pos hk, List.map_cons, List.mem_cons] at h
      rcases h with h | h
      · exact Or.inr h
      · exact Or.inl (by simp only [List.map_cons, List.mem_cons]; exact Or.inr h)
    · simp only [ainsert, if_neg hk, List.map_cons, List.mem_cons] at h
      rcases h with h | h
      · exact Or.inl (by simp only [List.map_cons, List.mem_cons]; exact Or.inl h)
      · rcases ih h with h2 | h2
        · exact Or.inl (by simp only [List.map_cons, List.mem_cons]; exact Or.inr h2)
        · exact Or.inr h2

theorem ainsert_keys_nodup {α : Type} (k : String) (v : α) :
    ∀ {m : List (String × α)},
      (m.map Prod.fst).Nodup → ((ainsert k v m).map Prod.fst).Nodup := by
  intro m
  induction m with
  | nil =>
    intro _
    simp [ainsert]
  | cons hd tl ih =>
    obtain ⟨k2, v2⟩ := hd
    intro h
    simp only [List.map_cons, List.nodup_cons] at h
    obtain ⟨hnotin, hnd⟩ := h
    by_cases hk : k2 = k
    · subst hk
      have hins : ainsert k2 v ((k2, v2) :: tl) = (k2, v) :: tl := by simp [ainsert]
      rw [hins]
      simp only [List.map_cons, List.nodup_cons]
      exact ⟨hnotin, hnd⟩
    · simp only [ainsert, if_neg hk, List.map_cons, List.nodup_cons]
      refine ⟨?_, ih hnd⟩
      intro hmem
      rcases mem_keys_ainsert hmem with h2 | h2
      · exact hnotin h2
      · exact hk h2

theorem goodKeys_ainsert (l : LabelSpec) :
    ∀ {m : List (String × LabelSpec)}, GoodKeys m → GoodKeys (ainsert l.name l m) := by
  intro m
  induction m with
  | nil =>
    intro _ e he
    simp [ainsert] at he
    rw [he]
  | cons hd tl ih =>
    intro h e he
    obtain ⟨k2, v2⟩ := hd
    by_cases hk : k2 = l.name
    · simp only [ainsert, if_pos hk] at he
      rcases List.mem_cons.mp he with rfl | hmem
      · rfl
      · exact h _ (List.mem_cons_of_mem _ hmem)
    · simp only [ainsert, if_neg hk] at he
      rcases List.mem_cons.mp he with rfl | hmem
      · exact h _ (List.mem_cons_self _ _)
      · exact ih (fun e2 he2 => h e2 (List.mem_cons_of_mem _ he2)) e hmem

theorem insertLabel_ok_shape {m m2 : List (String × LabelSpec)} {l : LabelSpec}
    (h : insertLabel m l = .ok m2) : m2 = ainsert l.name l m := by
  cases hl : alookup l.name m with
  | none =>
    simp only [insertLabel, hl] at h
    injection h with h2
    exact h2.symm
  | some existing =>
    by_cases hx : existing ≠ l
    · simp only [insertLabel, hl, if_pos hx] at h
      exact Except.noConfusion h
    · simp only [insertLabel, hl, if_neg hx] at h
      injection h with h2
      exact h2.symm

theorem insertLabel_ok_existing {m m2 : List (String × LabelSpec)} {l existing : LabelSpec}
    (h : insertLabel m l = .ok m2) (hl : alookup l.name m = some existing) : existing = l := by
  by_cases hx : existing ≠ l
  · simp only [insertLabel, hl, if_pos hx] at h
    exact Except.noConfusion h
  · exact not_not.mp hx

theorem insertLabels_persist :
    ∀ {L : List LabelSpec} {m0 m : List (String × LabelSpec)},
      insertLabels m0 L = .ok m → ∀ n v, alookup n m0 = some v → alookup n m = some v := by
  intro L
  induction L with
  | nil =>
    intro m0 m h n v hv
    unfold insertLabels at h
    injection h with h2
    rw [← h2]
    exact hv
  | cons l rest ih =>
    intro m0 m h n v hv
    unfold insertLabels at h
    cases hi : insertLabel m0 l with
    | error e =>
      rw [hi] at h
      exact Except.noConfusion h
    | ok m1 =>
      rw [hi] at h
      have hshape := insertLabel_ok_shape hi
      by_cases hn : n = l.name
      · subst hn
        have hex := insertLabel_ok_existing hi hv
        have h1 : alookup l.name m1 = some v := by
          rw [hshape, alookup_ainsert_self, hex]
        exact ih h l.name v h1
      · have h1 : alookup n m1 = some v := by
          rw [hshape, alookup_ainsert_ne hn]
          exact hv
        exact ih h n v h1

theorem insertLabels_complete :
    ∀ {L : List LabelSpec} {m0 m : List (String × LabelSpec)},
      insertLabels m0 L = .ok m → ∀ l ∈ L, alookup l.name m = some l := by
  intro L
  induction L with
  | nil =>
    intro m0 m h l hl
    simp at hl
  | cons l0 rest ih =>
    intro m0 m h l hl
    unfold insertLabels at h
    cases hi : insertLabel m0 l0 with
    | error e =>
      rw [hi] at h
      exact Except.noConfusion h
    | ok m1 =>
      rw [hi] at h
      have hshape := insertLabel_ok_shape hi
      rcases List.mem_cons.mp hl with rfl | hmem
      · exact insertLabels_persist h _ _ (by rw [hshape, alookup_ainsert_self])
      · exact ih h l hmem

theorem insertLabels_provenance :
    ∀ {L : List LabelSpec} {m0 m : List (String × LabelSpec)},
      insertLabels m0 L = .ok m →
      ∀ n v, alookup n m = some v → alookup n m0 = some v ∨ (v ∈ L ∧ v.name = n) := by
  intro L
  induction L with
  | nil =>
    intro m0 m h n v hv
    left
    unfold insertLabels at h
    injection h with h2
    rw [h2]
    exact hv
  | cons l0 rest ih =>
    intro m0 m h n v hv
    unfold insertLabels at h
    cases hi : insertLabel m0 l0 with
    | error e =>
      rw [hi] at h
      exact Except.noConfusion h
    | ok m1 =>
      rw [hi] at h
      have hshape := insertLabel_ok_shape hi
      rcases ih h n v hv with h1 | ⟨hm, hn⟩
      · by_cases hn : n = l0.name
        · subst hn
          rw [hshape, alookup_ainsert_self] at h1
          injection h1 with h2
          right
          refine ⟨?_, ?_⟩
          · rw [← h2]
            exact List.mem_cons_self _ _
          · rw [← h2]
        · left
          rw [hshape, alookup_ainsert_ne hn] at h1
          exact h1
      · right
        exact ⟨List.mem_cons_of_mem _ hm, hn⟩

theorem insertLabels_nodupKeys :
    ∀ {L : List LabelSpec} {m0 m : List (String × LabelSpec)},
      insertLabels m0 L = .ok m → (m0.map Prod.fst).Nodup → (m.map Prod.fst).Nodup := by
  intro L
  induction L with
  | nil =>
    intro m0 m h hnd
    unfold insertLabels at h
    injection h with h2
    rw [← h2]
    exact hnd
  | cons l0 rest ih =>
    intro m0 m h hnd
    unfold insertLabels at h
    cases hi : insertLabel m0 l0 with
    | error e =>
      rw [hi] at h
      exact Except.noConfusion h
    | ok m1 =>
      rw [hi] at h
      exact ih h (insertLabel_ok_shape hi ▸ ainsert_keys_nodup _ _ hnd)

theorem insertLabels_goodKeys :
    ∀ {L : List LabelSpec} {m0 m : List (String × LabelSpec)},
      insertLabels m0 L = .ok m → GoodKeys m0 → GoodKeys m := by
  intro L
  induction L with
  | nil =>
    intro m0 m h hg
    unfold insertLabels at h
    injection h with h2
    rw [← h2]
    exact hg
  | cons l0 rest ih =>
    intro m0 m h hg
    unfold insertLabels at h
    cases hi : insertLabel m0 l0 with
    | error e =>
      rw [hi] at h
      exact Except.noConfusion h
    | ok m1 =>
      rw [hi] at h
      exact ih h (insertLabel_ok_shape hi ▸ goodKeys_ainsert l0 hg)

theorem insertLabels_lookup_comm {L1 L2 : List LabelSpec}
    {m1 m2 : List (String × LabelSpec)}
    (h1 : insertLabels [] L1 = .ok m1) (h2 : insertLabels [] L2 = .ok m2)
    (hmem : ∀ l, l ∈ L1 ↔ l ∈ L2) : ∀ n, alookup n m1 = alookup n m2 := by
  intro n
  cases ha : alookup n m1 with
  | some v =>
    rcases insertLabels_provenance h1 n v ha with h0 | ⟨hm, hn⟩
    · simp [alookup] at h0
    · have hc := insertLabels_complete h2 v ((hmem v).mp hm)
      rw [hn] at hc
      exact hc.symm
  | none =>
    cases hb : alookup n m2 with
    | none => rfl
    | some w =>
      rcases insertLabels_provenance h2 n w hb with h0 | ⟨hm, hn⟩
      · simp [alookup] at h0
      · have hc := insertLabels_complete h1 w ((hmem w).mpr hm)
        rw [hn] at hc
        rw [ha] at hc
        exact Option.noConfusion hc

theorem mem_iff_alookup :
    ∀ {m : List (String × LabelSpec)}, (m.map Prod.fst).Nodup →
      ∀ e : String × LabelSpec, e ∈ m ↔ alookup e.1 m = some e.2 := by
  intro m
  induction m with
  | nil =>
    intro _ e
    simp [alookup]
  | cons hd tl ih =>
    intro hnd e
    obtain ⟨k, v⟩ := hd
    simp only [List.map_cons, List.nodup_cons] at hnd
    obtain ⟨hkn, hnd2⟩ := hnd
    constructor
    · intro he
      rcases List.mem_cons.mp he with rfl | hmem
      · simp [alookup]
      · have hek : e.1 ∈ tl.map Prod.fst := List.mem_map.mpr ⟨e, hmem, rfl⟩
        have hke : ¬ k = e.1 := fun hh => hkn (hh ▸ hek)
        simp only [alookup, if_neg hke]
        exact (ih hnd2 e).mp hmem
    · intro he
      by_cases hk : k = e.1
      · simp only [alookup, if_pos hk] at he
        injection he with he2
        have hev : e = (k, v) := by
          obtain ⟨e1, e2⟩ := e
          simp_all
        rw [hev]
        exact List.mem_cons_self _ _
      · simp only [alookup, if_neg hk] at he
        exact List.mem_cons_of_mem _ ((ih hnd2 e).mpr he)

theorem entries_perm {m1 m2 : List (String × LabelSpec)}
    (h1 : (m1.map Prod.fst).Nodup) (h2 : (m2.map Prod.fst).Nodup)
    (h : ∀ n, alookup n m1 = alookup n m2) : m1.Perm m2 :=
  (List.perm_ext_iff_of_nodup (List.Nodup.of_map _ h1) (List.Nodup.of_map _ h2)).mpr
    (fun e => by rw [mem_iff_alookup h1 e, mem_iff_alookup h2 e, h e.1])

theorem values_names_eq_keys {m : List (String × LabelSpec)} (hg : GoodKeys m) :
    (m.map Prod.snd).map (fun x => x.name) = m.map Prod.fst := by
  induction m with
  | nil => rfl
  | cons hd tl ih =>
    have h1 : hd.1 = hd.2.name := hg hd (List.mem_cons_self _ _)
    rw [List.map_cons, List.map_cons, List.map_cons, ← h1,
      ih (fun e he => hg e (List.mem_cons_of_mem _ he))]

/-! ## C8: merge order independence -/

theorem insertLabels_cons (m0 : List (String × LabelSpec)) (l : LabelSpec)
    (rest : List LabelSpec) :
    insertLabels m0 (l :: rest) =
      match insertLabel m0 l with
      | .error e => .error e
      | .ok m2 => insertLabels m2 rest := rfl

theorem insertLabels_append {L1 L2 : List LabelSpec} {m0 m1 : List (String × LabelSpec)}
    (h : insertLabels m0 L1 = .ok m1) :
    insertLabels m0 (L1 ++ L2) = insertLabels m1 L2 := by
  induction L1 generalizing m0 with
  | nil =>
    unfold insertLabels at h
    injection h with h2
    rw [List.nil_append, h2]
  | cons l rest ih =>
    rw [insertLabels_cons] at h
    rw [List.cons_append, insertLabels_cons]
    cases hi : insertLabel m0 l with
    | error e =>
      rw [hi] at h
      exact Except.noConfusion h
    | ok mI =>
      simp only [hi] at h ⊢
      exact ih h

theorem mergeSet_ok_labels {st : MergeState} {s : SetDefinition} {st2 : MergeState}
    (h : mergeSet st s = .ok st2) : insertLabels st.labels s.labels = .ok st2.labels := by
  unfold mergeSet at h
  cases hl : insertLabels st.labels s.labels with
  | error e =>
    simp only [hl] at h
    all_goals exact Except.noConfusion h
  | ok labels =>
    simp only [hl] at h
    cases ht : insertTemplates st.templates s.issue_templates with
    | error e =>
      simp only [ht] at h
      all_goals exact Except.noConfusion h
    | ok templates =>
      simp only [ht] at h
      cases hrs : (match s.repo_settings with
        | some settings => merge_or_conflict st.repo_settings settings "repo settings"
        | none => Except.ok st.repo_settings) with
      | error e =>
        simp only [hrs] at h
        all_goals exact Except.noConfusion h
      | ok rs =>
        simp only [hrs] at h
        cases hbp : (match s.branch_protection with
          | some bp => merge_or_conflict st.branch_protection bp "branch protection"
          | none => Except.ok st.branch_protection) with
        | error e =>
          simp only [hbp] at h
          all_goals exact Except.noConfusion h
        | ok bp =>
          simp only [hbp] at h
          cases hchk : (match s.checks with
            | some chk => merge_or_conflict st.checks chk "checks"
            | none => Except.ok st.checks) with
          | error e =>
            simp only [hchk] at h
            all_goals exact Except.noConfusion h
          | ok chk =>
            simp only [hchk] at h
            injection h with h2
            rw [← h2]

theorem mergeSets_two {A B : SetDefinition} {st : MergeState}
    (h : mergeSets ⟨[], [], none, none, none⟩ [A, B] = .ok st) :
    ∃ st1, mergeSet ⟨[], [], none, none, none⟩ A = .ok st1 ∧ mergeSet st1 B = .ok st := by
  unfold mergeSets at h
  cases h1 : mergeSet ⟨[], [], none, none, none⟩ A with
  | error e =>
    simp only [h1] at h
    all_goals exact Except.noConfusion h
  | ok st1 =>
    simp only [h1] at h
    unfold mergeSets at h
    cases h2 : mergeSet st1 B with
    | error e =>
      simp only [h2] at h
      all_goals exact Except.noConfusion h
    | ok st2 =>
      simp only [h2] at h
      unfold mergeSets at h
      injection h with h3
      subst h3
      exact ⟨st1, rfl, h2⟩

theorem merge_two_ok_labels {A B : SetDefinition} {m : MergedRepoConfig}
    (h : merge_sets_for_repo [A, B] = .ok m) :
    ∃ lm, insertLabels [] (A.labels ++ B.labels) = .ok lm ∧
      m.labels = sortLabels (lm.map Prod.snd) := by
  unfold merge_sets_for_repo at h
  cases hms : mergeSets ⟨[], [], none, none, none⟩ [A, B] with
  | error e =>
    simp only [hms] at h
    all_goals exact Except.noConfusion h
  | ok st =>
    simp only [hms] at h
    injection h with h2
    obtain ⟨st1, hA, hB⟩ := mergeSets_two hms
    have hLA : insertLabels [] A.labels = .ok st1.labels := mergeSet_ok_labels hA
    have hLB : insertLabels st1.labels B.labels = .ok st.labels := mergeSet_ok_labels hB
    refine ⟨st.labels, ?_, ?_⟩
    · rw [insertLabels_append hLA]
      exact hLB
    · rw [← h2]

theorem mergeSet_init {s : SetDefinition} {L : List (String × LabelSpec)}
    {T : List (String × IssueTemplateFile)}
    (hL : insertLabels [] s.labels = .ok L)
    (hT : insertTemplates [] s.issue_templates = .ok T) :
    mergeSet ⟨[], [], none, none, none⟩ s =
      .ok ⟨L, T, s.repo_settings, s.branch_protection, s.checks⟩ := by
  cases hrs : s.repo_settings <;> cases hbp : s.branch_protection <;>
    cases hchk : s.checks <;>
    simp [mergeSet, hL, hT, hrs, hbp, hchk, merge_or_conflict]

/-- C8: merging is order-independent. (1) For every two sets whose merges
succeed in both orders (in particular when they define overlapping labels
identically), `[A, B]` and `[B, A]` produce the same merged label list.
(2) Two sets defining `bug` with colors `ff0000` and `00ff00` (any
descriptions, no template files) produce `LabelConflict "bug"` in both
orders. -/
theorem C8_merge_order_independence :
    (∀ (A B : SetDefinition) (m1 m2 : MergedRepoConfig),
        merge_sets_for_repo [A, B] = .ok m1 →
        merge_sets_for_repo [B, A] = .ok m2 →
        m1.labels = m2.labels) ∧
    (∀ (A B : SetDefinition) (dA dB : Option String),
        A.labels = [⟨"bug", some "ff0000", dA⟩] →
        B.labels = [⟨"bug", some "00ff00", dB⟩] →
        A.issue_templates = [] → B.issue_templates = [] →
        merge_sets_for_repo [A, B] = .error (.LabelConflict "bug") ∧
        merge_sets_for_repo [B, A] = .error (.LabelConflict "bug")) := by
  constructor
  · intro A B m1 m2 h1 h2
    obtain ⟨lm1, hL1, hm1⟩ := merge_two_ok_labels h1
    obtain ⟨lm2, hL2, hm2⟩ := merge_two_ok_labels h2
    have hnd1 : (lm1.map Prod.fst).Nodup := insertLabels_nodupKeys hL1 (by simp)
    have hnd2 : (lm2.map Prod.fst).Nodup := insertLabels_nodupKeys hL2 (by simp)
    have hg1 : GoodKeys lm1 := insertLabels_goodKeys hL1 (by intro e he; simp at he)
    have hlook := insertLabels_lookup_comm hL1 hL2 (fun l => by
      simp only [List.mem_append]
      exact Or.comm)
    have hperm := entries_perm hnd1 hnd2 hlook
    have hvals := hperm.map Prod.snd
    have hnames : ((lm1.map Prod.snd).map (fun x => x.name)).Nodup := by
      rw [values_names_eq_keys hg1]
      exact hnd1
    rw [hm1, hm2]
    exact sortLabels_eq_of_perm hvals hnames
  · intro A B dA dB hA hB hAt hBt
    have hne1 : (⟨"bug", some "ff0000", dA⟩ : LabelSpec) ≠ ⟨"bug", some "00ff00", dB⟩ := by
      simp
    have hne2 : (⟨"bug", some "00ff00", dB⟩ : LabelSpec) ≠ ⟨"bug", some "ff0000", dA⟩ := by
      simp
    have hstA : mergeSet ⟨[], [], none, none, none⟩ A =
        .ok ⟨[("bug", ⟨"bug", some "ff0000", dA⟩)], [], A.repo_settings,
          A.branch_protection, A.checks⟩ :=
      mergeSet_init (by rw [hA]; rfl) (by rw [hAt]; rfl)
    have hstB : mergeSet ⟨[], [], none, none, none⟩ B =
        .ok ⟨[("bug", ⟨"bug", some "00ff00", dB⟩)], [], B.repo_settings,
          B.branch_protection, B.checks⟩ :=
      mergeSet_init (by rw [hB]; rfl) (by rw [hBt]; rfl)
    have hILB : insertLabels [("bug", ⟨"bug", some "ff0000", dA⟩)]
        [⟨"bug", some "00ff00", dB⟩] = .error (.LabelConflict "bug") := by
      simp [insertLabels, insertLabel, alookup, hne1]
    have hILA : insertLabels [("bug", ⟨"bug", some "00ff00", dB⟩)]
        [⟨"bug", some "ff0000", dA⟩] = .error (.LabelConflict "bug") := by
      simp [insertLabels, insertLabel, alookup, hne2]
    constructor
    · simp only [merge_sets_for_repo, mergeSets, hstA]
      simp only [mergeSet, hB, hILB]
    · simp only [merge_sets_for_repo, mergeSets, hstB]
      simp only [mergeSet, hA, hILA]

def c8A : SetDefinition :=
  ⟨"a", [⟨"bug", some "ff0000", some "A bug"⟩], [], none, none, none⟩

def c8B : SetDefinition :=
  ⟨"b", [⟨"bug", some "ff0000", some "A bug"⟩, ⟨"feature", none, none⟩], [],
   none, none, none⟩

def c8MAB : MergedRepoConfig :=
  ⟨[⟨"bug", some "ff0000", some "A bug"⟩, ⟨"feature", none, none⟩], [],
   none, none, none⟩

def c8ConflictA : SetDefinition :=
  ⟨"a", [⟨"bug", some "ff0000", none⟩], [], none, none, none⟩

def c8ConflictB : SetDefinition :=
  ⟨"b", [⟨"bug", some "00ff00", none⟩], [], none, none, none⟩

/-- Witness for C8: two sets defining `bug` identically merge to the same
label list in both orders, and the `ff0000`-vs-`00ff00` pair conflicts in
both orders. -/
theorem C8_witness :
    c8MAB.labels = c8MAB.labels ∧
    (merge_sets_for_repo [c8ConflictA, c8ConflictB] = .error (.LabelConflict "bug") ∧
     merge_sets_for_repo [c8ConflictB, c8ConflictA] = .error (.LabelConflict "bug")) :=
  ⟨C8_merge_order_independence.1 c8A c8B c8MAB c8MAB (by decide) (by decide),
   C8_merge_order_independence.2 c8ConflictA c8ConflictB none none rfl rfl rfl rfl⟩

end GhGovernor
